import Mathlib

/-!
Verification of the LimeScribe voice-dialogue core.

This file gives a shallow embedding of the parts of the repository that the
verified properties are about:

* `core/dialogue_service.py` — word-limit truncation of the streamed chat
  reply (`DialogueService._truncate_to_words`, `DialogueService.send_stream`);
* `core/vad_listener.py` — the voice-activity-detection loop
  (`VADListener._listen_loop` and the parameter derivation in
  `VADListener.__init__`);
* `core/voice_dialogue.py` — the turn orchestrator
  (`VoiceDialogueOrchestrator`): start/stop, barge-in, per-turn processing,
  sentence segmentation and word-limit clamping.

Python strings are modelled as `List Char` (the ASCII fragment of Python's
whitespace class is used for `\s` and `str.strip`), machine floats as `ℚ`,
byte strings as `List Nat`.  Threading events are modelled by identity
tokens recorded in explicit state; callbacks are modelled as events
appended to an explicit event list in program order.
-/

/-- Python strings, modelled as lists of characters. -/
abbrev Str := List Char

/-- ASCII fragment of Python's whitespace class `\s` (also used by
`str.strip`): space, tab, newline, carriage return, vertical tab, form
feed. -/
def pyIsSpace (c : Char) : Bool :=
  c = ' ' || c = '\t' || c = '\n' || c = '\r' || c = '\x0b' || c = '\x0c'

/-- Python `str.strip()`: remove leading and trailing whitespace. -/
def pyStrip (cs : Str) : Str :=
  ((cs.dropWhile pyIsSpace).reverse.dropWhile pyIsSpace).reverse

namespace DialogueSvc

/-!  ## `core/dialogue_service.py`

`_WORD_RE = re.compile(r"\S+")`: a *word* is a maximal run of non-whitespace
characters.  `countWordsGo cs inWord` counts the words started inside `cs`,
where `inWord` records whether the character just before `cs` was
non-whitespace (so a leading non-whitespace character of `cs` continues a
word already started rather than starting a new one). -/

def countWordsGo : Str → Bool → Nat
  | [], _ => 0
  | c :: cs, inWord =>
    if pyIsSpace c then countWordsGo cs false
    else (if inWord then 0 else 1) + countWordsGo cs true

/-- Number of `\S+` words of a string, as counted by `_WORD_RE.finditer`. -/
def countWords (cs : Str) : Nat := countWordsGo cs false

/-- Core of `DialogueService._truncate_to_words`: scan `cs` looking for the
end of the `n`-th word (`n ≥ 1`), where `inWord` records whether the
character preceding `cs` was non-whitespace.  Returns `some r` with `r` the
prefix of `cs` ending exactly at the end of the `n`-th word (the position
`match.end()` of the `n`-th `\S+` match), or `none` when `cs` holds fewer
than `n` word ends. -/
def truncGo : Str → Bool → Nat → Option Str
  | [], inWord, n => if inWord ∧ n = 1 then some [] else none
  | c :: cs, inWord, n =>
    if pyIsSpace c then
      if inWord then
        if n = 1 then some []
        else (truncGo cs false (n - 1)).map (fun r => c :: r)
      else (truncGo cs false n).map (fun r => c :: r)
    else (truncGo cs true n).map (fun r => c :: r)

/-- `DialogueService._truncate_to_words(text, max_words)`: for
`max_words ≤ 0` return `""`; otherwise return `text[:end]` where `end` is
the end of the `max_words`-th whitespace-delimited word, or `text`
unchanged when it has fewer words. -/
def truncateToWords (text : Str) (maxWords : Int) : Str :=
  if maxWords ≤ 0 then []
  else (truncGo text false maxWords.toNat).getD text

/-- Result of the `send_stream` delta loop: the arguments of the `on_delta`
calls made, the final `accumulated` string, and how many deltas were pulled
from the underlying stream. -/
structure StreamOut where
  emitted : List Str
  accumulated : Str
  consumed : Nat
  deriving DecidableEq

/-- The `for delta in self.client.complete_stream(...)` loop of
`DialogueService.send_stream`, for a run in which `cancel_event` is never
set.  `limit` is the already-normalised word limit (`int(max_words)`,
negatives mapped to `0` by the caller-side guard `if limit < 0: limit = 0`;
we keep the `0 < limit` test of the loop body).  On each delta the candidate
accumulation is truncated; the freshly added suffix is emitted via
`on_delta` when non-empty, and the loop breaks as soon as truncation
actually dropped characters. -/
def sendStreamGo (limit : Int) : List Str → Str → StreamOut
  | [], acc => ⟨[], acc, 0⟩
  | d :: ds, acc =>
    let candidate := acc ++ d
    if 0 < limit then
      let trimmed := truncateToWords candidate limit
      let emitted := trimmed.drop acc.length
      let out1 : List Str := if emitted ≠ [] then [emitted] else []
      if trimmed.length < candidate.length then
        ⟨out1, trimmed, 1⟩
      else
        let rest := sendStreamGo limit ds trimmed
        ⟨out1 ++ rest.emitted, rest.accumulated, rest.consumed + 1⟩
    else
      let rest := sendStreamGo limit ds candidate
      ⟨[d] ++ rest.emitted, rest.accumulated, rest.consumed + 1⟩

end DialogueSvc

namespace VAD

/-!  ## `core/vad_listener.py`

A `Frame` models one 30 ms PCM block read from the input stream: `rms` is
`VADListener._frame_rms` of its samples (a machine float, modelled in `ℚ`),
`vadSpeech` is the verdict `webrtcvad.Vad.is_speech(pcm, 16000)` of the
underlying binary classifier on this block (an external collaborator,
modelled as an oracle attached to the frame), and `payload` identifies the
captured audio content so that buffer manipulations can be tracked. -/
structure Frame where
  rms : ℚ
  vadSpeech : Bool
  payload : Nat
  deriving DecidableEq

/-- Python `int(x)` on a float: truncation toward zero. -/
def pyTrunc (q : ℚ) : Int := if 0 ≤ q then ⌊q⌋ else -⌊-q⌋

/-- `_ENERGY_FLOOR_BY_AGGR = {0: 90.0, 1: 130.0, 2: 185.0, 3: 250.0}` -/
def energyFloorByAggr : Nat → ℚ
  | 0 => 90
  | 1 => 130
  | 2 => 185
  | _ => 250

/-- `_NOISE_MULTIPLIER_BY_AGGR = {0: 1.20, 1: 1.35, 2: 1.50, 3: 1.70}` -/
def noiseMultiplierByAggr : Nat → ℚ
  | 0 => 6 / 5
  | 1 => 27 / 20
  | 2 => 3 / 2
  | _ => 17 / 10

/-- `_TRIGGER_FRAMES_BY_AGGR = {0: 1, 1: 2, 2: 3, 3: 4}` -/
def triggerFramesByAggr : Nat → Nat
  | 0 => 1
  | 1 => 2
  | 2 => 3
  | _ => 4

/-- `_NOISE_ADAPT_ALPHA = 0.05` -/
def noiseAdaptAlpha : ℚ := 1 / 20

/-- The parameters derived in `VADListener.__init__` and used by
`_listen_loop` (`FRAME_DURATION_MS = 30`). -/
structure Params where
  energyFloor : ℚ
  noiseMultiplier : ℚ
  triggerSpeechFrames : Nat
  framesPerPause : Int
  minSpeechFrames : Nat
  deriving DecidableEq

/-- `VADListener.__init__(pause_threshold, vad_aggressiveness,
min_speech_seconds)` with all three arguments supplied: the aggressiveness
level is clamped to `[0, 3]`, the minimum speech duration to `[0, ∞)`,
`_frames_per_pause = int(pause_threshold * 1000 / 30)` and
`_min_speech_frames = max(1, int(min_seconds * 1000 / 30))`. -/
def mkParams (pauseThreshold : ℚ) (vadAggressiveness : Int) (minSpeechSeconds : ℚ) : Params :=
  let level : Nat := (max 0 (min 3 vadAggressiveness)).toNat
  let minSeconds : ℚ := max 0 minSpeechSeconds
  { energyFloor := energyFloorByAggr level
    noiseMultiplier := noiseMultiplierByAggr level
    triggerSpeechFrames := triggerFramesByAggr level
    framesPerPause := pyTrunc (pauseThreshold * 1000 / 30)
    minSpeechFrames := max 1 (pyTrunc (minSeconds * 1000 / 30)).toNat }

/-- `VADListener._energy_gate(noise_rms)`. -/
def energyGate (p : Params) (noiseRms : ℚ) : ℚ :=
  max p.energyFloor (noiseRms * p.noiseMultiplier)

/-- `VADListener._is_speech_frame(pcm, frame_rms, noise_rms)`: the frame is
speech only when its RMS clears the dynamic gate *and* the underlying
classifier agrees. -/
def isSpeechFrame (p : Params) (f : Frame) (noiseRms : ℚ) : Bool :=
  if f.rms < energyGate p noiseRms then false else f.vadSpeech

/-- The mutable locals of `VADListener._listen_loop`. -/
structure St where
  speechFrames : List Frame
  speechFrameCount : Nat
  silentFrameCount : Nat
  inSpeech : Bool
  candidateFrames : List Frame
  candidateSpeechCount : Nat
  noiseRms : ℚ
  deriving DecidableEq

/-- Initial loop state: `noise_rms = energy_floor / max(1.0, noise_multiplier)`. -/
def initSt (p : Params) : St :=
  ⟨[], 0, 0, false, [], 0, p.energyFloor / max 1 p.noiseMultiplier⟩

/-- `VADListener._to_wav(frames)`: returns `b""` on an empty frame list and
a non-empty WAV encoding of the concatenated frames otherwise.  We model
the encoded bytes by the frame list itself, with `[]` standing for `b""`. -/
def toWav (frames : List Frame) : List Frame :=
  if frames = [] then [] else frames

/-- One finalization of an utterance (the pause branch of the loop, or the
flush after stream termination): the buffered frames, their confirmed
voiced-frame count, and the bytes handed to `on_speech_chunk` (`[]` when
the chunk was discarded — `on_speech_chunk` is only invoked when `wav` is
non-empty, matching `if wav_bytes:`). -/
structure Chunk where
  frames : List Frame
  speechCount : Nat
  wav : List Frame
  deriving DecidableEq

/-- One iteration of the `while self._running` body of
`VADListener._listen_loop` on frame `f`. -/
def step (p : Params) (s : St) (f : Frame) : St × Option Chunk :=
  if isSpeechFrame p f s.noiseRms then
    if s.inSpeech then
      ({ s with silentFrameCount := 0,
                speechFrameCount := s.speechFrameCount + 1,
                speechFrames := s.speechFrames ++ [f] }, none)
    else
      let cFrames := s.candidateFrames ++ [f]
      let cCount := s.candidateSpeechCount + 1
      if p.triggerSpeechFrames ≤ cCount then
        ({ s with silentFrameCount := 0,
                  inSpeech := true,
                  speechFrames := s.speechFrames ++ cFrames,
                  speechFrameCount := s.speechFrameCount + cCount,
                  candidateFrames := [],
                  candidateSpeechCount := 0 }, none)
      else
        ({ s with silentFrameCount := 0,
                  candidateFrames := cFrames,
                  candidateSpeechCount := cCount }, none)
  else
    if s.inSpeech then
      let silentCount := s.silentFrameCount + 1
      let frames := s.speechFrames ++ [f]
      if p.framesPerPause ≤ (silentCount : Int) then
        let wav := if p.minSpeechFrames ≤ s.speechFrameCount then toWav frames else []
        ({ s with speechFrames := [],
                  speechFrameCount := 0,
                  inSpeech := false,
                  silentFrameCount := 0 },
         some ⟨frames, s.speechFrameCount, wav⟩)
      else
        ({ s with silentFrameCount := silentCount, speechFrames := frames }, none)
    else
      ({ s with candidateFrames := [],
                candidateSpeechCount := 0,
                noiseRms := (1 - noiseAdaptAlpha) * s.noiseRms + noiseAdaptAlpha * f.rms },
       none)

/-- Run the loop body over a list of frames, collecting finalizations. -/
def run (p : Params) : St → List Frame → St × List Chunk
  | s, [] => (s, [])
  | s, f :: fs =>
    let out := step p s f
    let rest := run p out.1 fs
    (rest.1, out.2.toList ++ rest.2)

/-- The `finally` clause of `_listen_loop`: flush any remaining buffered
speech through the same minimum-duration check. -/
def flush (p : Params) (s : St) : Option Chunk :=
  if s.speechFrames ≠ [] then
    some ⟨s.speechFrames, s.speechFrameCount,
          if p.minSpeechFrames ≤ s.speechFrameCount then toWav s.speechFrames else []⟩
  else none

/-- All finalizations produced by one listening session over `frames`
(stream read until termination, then flush). -/
def listenLoop (p : Params) (frames : List Frame) : List Chunk :=
  let out := run p (initSt p) frames
  out.2 ++ (flush p out.1).toList

/-- Feed the same frame `k` times (state only). -/
def stepIter (p : Params) (f : Frame) : Nat → St → St
  | 0, s => s
  | k + 1, s => stepIter p f k (step p s f).1

/-- The onset-confirmation behaviour from a state `s` that is outside any
speech run with an empty candidate buffer: (a) at most
`trigger_speech_frames - 1` consecutive speech-classified frames followed
by a non-speech frame produce no utterance and reset the candidate buffer,
leaving the utterance buffer untouched; (b) `trigger_speech_frames`
consecutive speech-classified frames confirm the run, prepending all
candidate frames to the utterance buffer so no audio is lost. -/
def OnsetSpec (p : Params) (s : St) : Prop :=
  (∀ (fs : List Frame) (g : Frame),
    (∀ f ∈ fs, isSpeechFrame p f s.noiseRms = true) →
    fs.length ≤ p.triggerSpeechFrames - 1 →
    isSpeechFrame p g s.noiseRms = false →
    (run p s (fs ++ [g])).2 = []
    ∧ (run p s (fs ++ [g])).1.inSpeech = false
    ∧ (run p s (fs ++ [g])).1.candidateFrames = []
    ∧ (run p s (fs ++ [g])).1.candidateSpeechCount = 0
    ∧ (run p s (fs ++ [g])).1.speechFrames = s.speechFrames)
  ∧ (∀ fs : List Frame,
      (∀ f ∈ fs, isSpeechFrame p f s.noiseRms = true) →
      fs.length = p.triggerSpeechFrames →
      (run p s fs).2 = []
      ∧ (run p s fs).1.inSpeech = true
      ∧ (run p s fs).1.speechFrames = s.speechFrames ++ fs
      ∧ (run p s fs).1.speechFrameCount = s.speechFrameCount + p.triggerSpeechFrames
      ∧ (run p s fs).1.candidateFrames = []
      ∧ (run p s fs).1.candidateSpeechCount = 0)

end VAD
namespace Orchestrator

/-!  ## `core/voice_dialogue.py`

The orchestrator state is the mutable attribute set of
`VoiceDialogueOrchestrator`.  `threading.Event` objects are modelled by
identity: the per-turn cancellation Event created by `_start_turn` for turn
`k` is identified by the token id `k` (turn ids increase strictly, so ids
are fresh), and the set of Events on which `.set()` has been called is the
list `cancelledTokens` — an Event, once set, is never cleared in the
source.  The module-level playback gate of `core/audio_playback.py` is the
flag `playbackActive`.  Armed `VADListener` instances are identified by a
running counter so that detector creation can be observed.  Callbacks
(`on_state_changed`, `on_user_transcript`, …) are modelled as all wired;
an invocation appends an `Event` to the run's event list in program
order. -/

inductive OState
  | idle
  | listening
  | transcribing
  | thinking
  | speaking
  | cancelling
  deriving DecidableEq

/-- Byte strings (audio buffers). -/
abbrev Bytes := List Nat

inductive Event
  | stateChanged (s : OState)
  | userTranscript (t : Str)
  | assistantText (t : Str)
  | assistantAudio (b : Bytes)
  | errorFired (m : Str)
  | turnComplete
  | serviceError (m : Str)
  | ttsCall (sentence : Str)
  | playStarted (b : Bytes)
  | playbackStopped
  | vadStarted (id : Nat)
  | vadStopped (id : Nat)
  deriving DecidableEq

structure Orch where
  state : OState
  cancelFlag : Bool
  autoListen : Bool
  vad : Option Nat
  vadCounter : Nat
  maxWordsAuto : Int
  maxWordsManual : Int
  activeTurnId : Nat
  activeTurnCancel : Option Nat
  cancelledTokens : List Nat
  playbackActive : Bool
  deriving DecidableEq

/-- `int(value)` outcomes for the duck-typed argument of
`_clamp_word_limit`: either conversion succeeds with value `n`, or it
raises `TypeError`/`ValueError`. -/
inductive PyVal
  | intLike (n : Int)
  | badValue
  deriving DecidableEq

/-- `VoiceDialogueOrchestrator._clamp_word_limit(value, default)` with
`_MIN_WORD_LIMIT = 10`, `_MAX_WORD_LIMIT = 500`. -/
def clampWordLimit (value : PyVal) (default : Int) : Int :=
  let parsed : Int :=
    match value with
    | .intLike n => n
    | .badValue => default
  max 10 (min 500 parsed)

/-- `VoiceDialogueOrchestrator.set_response_word_limits`: a `None` argument
leaves the corresponding limit untouched; otherwise the limit is clamped,
with the previous limit as the fallback default. -/
def setResponseWordLimits (o : Orch) (mAuto mManual : Option PyVal) : Orch :=
  let o1 :=
    match mAuto with
    | none => o
    | some v => { o with maxWordsAuto := clampWordLimit v o.maxWordsAuto }
  match mManual with
  | none => o1
  | some v => { o1 with maxWordsManual := clampWordLimit v o1.maxWordsManual }

/-- The freshly constructed orchestrator
(`_MAX_WORDS_AUTO_LISTEN = 100`, `_MAX_WORDS_MANUAL = 50`). -/
def initOrch : Orch :=
  { state := .idle
    cancelFlag := false
    autoListen := true
    vad := none
    vadCounter := 0
    maxWordsAuto := clampWordLimit (.intLike 100) 100
    maxWordsManual := clampWordLimit (.intLike 50) 50
    activeTurnId := 0
    activeTurnCancel := none
    cancelledTokens := []
    playbackActive := false }

/-- `_set_state`: mutate the state and fire `on_state_changed`. -/
def setState (o : Orch) (ns : OState) : Orch × List Event :=
  ({ o with state := ns }, [.stateChanged ns])

/-- `_stop_vad`. -/
def stopVad (o : Orch) : Orch × List Event :=
  match o.vad with
  | none => (o, [])
  | some i => ({ o with vad := none }, [.vadStopped i])

/-- `core/audio_playback.stop_playback()`. -/
def stopPlayback (o : Orch) : Orch × List Event :=
  ({ o with playbackActive := false }, [.playbackStopped])

/-- `_start_listening(set_state=...)`: creates and arms a fresh
`VADListener` only when none is armed. -/
def startListening (o : Orch) (setSt : Bool) : Orch × List Event :=
  if o.cancelFlag then
    if setSt then setState o .idle else (o, [])
  else
    match o.vad with
    | some _ => (o, [])
    | none =>
      let i := o.vadCounter
      let o1 := { o with vad := some i, vadCounter := i + 1 }
      if setSt then
        let s := setState o1 .listening
        (s.1, Event.vadStarted i :: s.2)
      else (o1, [Event.vadStarted i])

/-- `start()`: a no-op unless the orchestrator is `Idle`. -/
def start (o : Orch) : Orch × List Event :=
  if o.state ≠ OState.idle then (o, [])
  else startListening { o with cancelFlag := false } true

/-- `_cancel_active_turn`: set the active turn's cancellation Event. -/
def cancelActiveTurn (o : Orch) : Orch :=
  match o.activeTurnCancel with
  | some t => { o with cancelledTokens := t :: o.cancelledTokens }
  | none => o

/-- `stop()`. -/
def stop (o : Orch) : Orch × List Event :=
  let o1 := cancelActiveTurn { o with cancelFlag := true }
  let s1 := stopVad o1
  let s2 := stopPlayback s1.1
  let s3 := setState s2.1 .idle
  (s3.1, s1.2 ++ s2.2 ++ s3.2)

/-- `_start_turn`: cancel the previous turn's Event (if any), allocate the
next turn id and a fresh cancellation Event for it. -/
def startTurn (o : Orch) : Orch × Nat × Nat :=
  let o1 := cancelActiveTurn o
  let newId := o1.activeTurnId + 1
  ({ o1 with activeTurnId := newId, activeTurnCancel := some newId }, newId, newId)

/-- `_is_turn_active(turn_id, turn_cancel)`. -/
def isTurnActive (o : Orch) (turnId tok : Nat) : Bool :=
  o.activeTurnId = turnId && o.activeTurnCancel = some tok

/-- `_clear_turn_if_active(turn_id, turn_cancel)`. -/
def clearTurnIfActive (o : Orch) (turnId tok : Nat) : Orch :=
  if isTurnActive o turnId tok then { o with activeTurnCancel := none } else o

/-- `_turn_should_stop(turn_id, turn_cancel)`. -/
def turnShouldStop (o : Orch) (turnId tok : Nat) : Bool :=
  o.cancelFlag || tok ∈ o.cancelledTokens || ! isTurnActive o turnId tok

/-- `_response_word_limit()`. -/
def responseWordLimit (o : Orch) : Int :=
  if o.autoListen then o.maxWordsAuto else o.maxWordsManual

/-- `_arm_interrupt_listener()`. -/
def armInterruptListener (o : Orch) : Orch × List Event :=
  if ! o.autoListen || o.cancelFlag then (o, [])
  else startListening o false

/-- `_maybe_auto_listen()`. -/
def maybeAutoListen (o : Orch) : Orch × List Event :=
  if o.cancelFlag then setState o .idle
  else if o.autoListen then startListening o true
  else setState o .idle

/-- `_on_speech_chunk(wav_bytes)`: the VAD delivered an utterance.  Returns
the new orchestrator, the events fired, and — when a turn thread is spawned
— the `(wav_bytes, turn_id, turn_cancel)` arguments it is given. -/
def onSpeechChunk (o : Orch) (wav : Bytes) : Orch × List Event × Option (Bytes × Nat × Nat) :=
  if o.cancelFlag then (o, [], none)
  else
    let cur := o.state
    let allowBargeIn : Bool :=
      o.autoListen &&
        (cur = OState.transcribing || cur = OState.thinking || cur = OState.speaking)
    if cur ≠ OState.listening ∧ ! allowBargeIn then (o, [], none)
    else
      let s1 := stopVad o
      let s2 :=
        if allowBargeIn then
          let o' := cancelActiveTurn s1.1
          stopPlayback o'
        else (s1.1, [])
      let s3 := startTurn s2.1
      let s4 := setState s3.1 .transcribing
      (s4.1, s1.2 ++ s2.2 ++ s4.2, some (wav, s3.2.1, s3.2.2))

/-- Regex `[.!?;]` character class of `_SENTENCE_END`. -/
def isSentenceEnd (c : Char) : Bool :=
  c = '.' || c = '!' || c = '?' || c = ';'

/-- `re.search` for the pattern `[.!?;]\s`: `match.end()` of the leftmost
occurrence of a sentence-terminal punctuation character immediately
followed by a whitespace character. -/
def findBoundaryEnd : Str → Option Nat
  | [] => none
  | a :: rest =>
    match rest with
    | [] => none
    | b :: _ =>
      if isSentenceEnd a && pyIsSpace b then some 2
      else (findBoundaryEnd rest).map (· + 1)

/-- Position `i` of `cs` starts a sentence boundary: a sentence-terminal
punctuation character immediately followed by a whitespace character (the
regex `[.!?;]\s`). -/
def HasBoundaryAt (cs : Str) (i : Nat) : Prop :=
  ∃ a b, cs[i]? = some a ∧ cs[i + 1]? = some b
    ∧ isSentenceEnd a = true ∧ pyIsSpace b = true

/-- The external collaborators of one turn:  the transcription result
(`LemonFoxClient.transcribe_bytes`), the deltas yielded by
`LemonFoxChatClient.complete_stream` (followed, when `chatRaises` is set,
by an exception raised from inside the stream and caught by
`DialogueService.send_stream`), and the per-sentence synthesis outcome
(`LemonFoxTTSClient.synthesize`). -/
structure Collab where
  transcript : Bytes → Except Str Str
  rawDeltas : List Str
  chatRaises : Option Str
  tts : Str → Except Str Bytes

/-- The closure state of `_process_turn`'s `on_delta`: `accumulated_text`
and `sentence_buffer`, each kept joined. -/
structure TurnBuf where
  accumulated : Str
  sentenceBuf : Str
  deriving DecidableEq

/-- Orchestrator, closure buffers, and the events fired so far. -/
structure Ctx where
  orch : Orch
  buf : TurnBuf
  events : List Event
  deriving DecidableEq

/-- The bounded poll loop `_wait_for_playback`: the clip finishes on its
own (the environment clears the gate) unless the turn must stop first, in
which case an explicit `stop_playback()` is issued. -/
def waitForPlayback (o : Orch) (turnId tok : Nat) : Orch × List Event :=
  if o.playbackActive then
    if turnShouldStop o turnId tok then stopPlayback o
    else ({ o with playbackActive := false }, [])
  else (o, [])

/-- `_speak_sentence(sentence, turn_id, turn_cancel)`.  A synthesis or
playback exception is caught here and only logged: no notification
fires. -/
def speakSentence (C : Collab) (o : Orch) (sentence : Str) (turnId tok : Nat) :
    Orch × List Event :=
  if turnShouldStop o turnId tok then (o, [])
  else
    let s1 := setState o .speaking
    match C.tts sentence with
    | .error _ => (s1.1, s1.2 ++ [.ttsCall sentence])
    | .ok audio =>
      if turnShouldStop s1.1 turnId tok then (s1.1, s1.2 ++ [.ttsCall sentence])
      else
        let o2 := { s1.1 with playbackActive := true }
        let w := waitForPlayback o2 turnId tok
        (w.1, s1.2 ++ [Event.ttsCall sentence, Event.assistantAudio audio,
                       Event.playStarted audio] ++ w.2)

/-- The `on_delta` closure defined inside `_process_turn`. -/
def onDeltaStep (C : Collab) (turnId tok : Nat) (ctx : Ctx) (d : Str) : Ctx :=
  if turnShouldStop ctx.orch turnId tok then ctx
  else
    let acc := ctx.buf.accumulated ++ d
    let bufferStr := ctx.buf.sentenceBuf ++ d
    match findBoundaryEnd bufferStr with
    | none => ⟨ctx.orch, ⟨acc, bufferStr⟩, ctx.events⟩
    | some endPos =>
      let sentence := pyStrip (bufferStr.take endPos)
      let remainder := bufferStr.drop endPos
      if sentence ≠ [] then
        let r := speakSentence C ctx.orch sentence turnId tok
        ⟨r.1, ⟨acc, remainder⟩, ctx.events ++ r.2⟩
      else ⟨ctx.orch, ⟨acc, remainder⟩, ctx.events⟩

/-- `if emitted and on_delta: on_delta(emitted)` — the sink invocation of
the truncating branch. -/
def serviceSink (C : Collab) (turnId tok : Nat) (ctx : Ctx) (e : Str) : Ctx :=
  if e ≠ [] then onDeltaStep C turnId tok ctx e else ctx

/-- The delta loop of `DialogueService.send_stream` with the orchestrator's
`on_delta` as sink and the turn's cancellation Event as `cancel_event`.
Returns the context after the loop together with the service-side
`accumulated` string. -/
def serviceLoop (C : Collab) (turnId tok : Nat) (limit : Int) :
    List Str → Str → Ctx → Ctx × Str
  | [], acc, ctx => (ctx, acc)
  | d :: ds, acc, ctx =>
    if tok ∈ ctx.orch.cancelledTokens then (ctx, acc)
    else if 0 < limit then
      if (DialogueSvc.truncateToWords (acc ++ d) limit).length < (acc ++ d).length then
        (serviceSink C turnId tok ctx
           ((DialogueSvc.truncateToWords (acc ++ d) limit).drop acc.length),
         DialogueSvc.truncateToWords (acc ++ d) limit)
      else
        serviceLoop C turnId tok limit ds (DialogueSvc.truncateToWords (acc ++ d) limit)
          (serviceSink C turnId tok ctx
             ((DialogueSvc.truncateToWords (acc ++ d) limit).drop acc.length))
    else serviceLoop C turnId tok limit ds (acc ++ d) (onDeltaStep C turnId tok ctx d)

/-- `DialogueService.send_stream` as invoked by `_process_turn` (the
message is the already-stripped, non-empty transcript).  A mid-stream
exception is caught inside the service and surfaced through the service's
own error callback; the service's history bookkeeping and `on_reply` have
no orchestrator-visible effect and are not modelled. -/
def sendStreamModel (C : Collab) (turnId tok : Nat) (limit : Int) (ctx : Ctx) : Ctx :=
  let out := serviceLoop C turnId tok limit C.rawDeltas [] ctx
  match C.chatRaises with
  | some e => ⟨out.1.orch, out.1.buf, out.1.events ++ [Event.serviceError e]⟩
  | none => out.1

/-- The `try` block of `_process_turn`: returns the orchestrator, the
events fired, and the exception propagating out of the block, if any. -/
def tryPart (C : Collab) (o : Orch) (wav : Bytes) (turnId tok : Nat) :
    Orch × List Event × Option Str :=
  if turnShouldStop o turnId tok then (o, [], none)
  else
    match C.transcript wav with
    | .error e => (o, [], some e)
    | .ok t0 =>
      if pyStrip t0 = [] then (o, [], none)
      else
        let userText := pyStrip t0
        if turnShouldStop o turnId tok then (o, [], none)
        else
          let ev1 := [Event.userTranscript userText]
          let s1 := setState o .thinking
          if turnShouldStop s1.1 turnId tok then (s1.1, ev1 ++ s1.2, none)
          else
            let s2 := armInterruptListener s1.1
            let ctx0 : Ctx := ⟨s2.1, ⟨[], []⟩, []⟩
            let ctx1 := sendStreamModel C turnId tok (responseWordLimit s2.1) ctx0
            if turnShouldStop ctx1.orch turnId tok then
              (ctx1.orch, ev1 ++ s1.2 ++ s2.2 ++ ctx1.events, none)
            else
              let remainder := pyStrip ctx1.buf.sentenceBuf
              let s3 :=
                if remainder ≠ [] then
                  speakSentence C ctx1.orch remainder turnId tok
                else (ctx1.orch, [])
              let fullText := pyStrip ctx1.buf.accumulated
              let ev5 :=
                if fullText ≠ [] ∧ ! turnShouldStop s3.1 turnId tok then
                  [Event.assistantText fullText]
                else []
              (s3.1, ev1 ++ s1.2 ++ s2.2 ++ ctx1.events ++ s3.2 ++ ev5, none)

/-- The `finally` block of `_process_turn`. -/
def finallyPart (o : Orch) (turnId tok : Nat) : Orch × List Event :=
  if ! isTurnActive o turnId tok then (o, [])
  else
    let o1 := clearTurnIfActive o turnId tok
    let s1 := stopVad o1
    if s1.1.cancelFlag then
      let s2 := setState s1.1 .idle
      (s2.1, s1.2 ++ s2.2)
    else if tok ∉ s1.1.cancelledTokens then
      let s2 := maybeAutoListen s1.1
      (s2.1, s1.2 ++ [Event.turnComplete] ++ s2.2)
    else (s1.1, s1.2)

/-- `_process_turn(wav_bytes, turn_id, turn_cancel)`: the `try` block, the
`except` handler (fires `on_error` once), then the `finally` block. -/
def processTurn (C : Collab) (o : Orch) (wav : Bytes) (turnId tok : Nat) :
    Orch × List Event :=
  let t := tryPart C o wav turnId tok
  let evErr : List Event :=
    match t.2.2 with
    | some e => [Event.errorFired e]
    | none => []
  let f := finallyPart t.1 turnId tok
  (f.1, t.2.1 ++ evErr ++ f.2)

/-- The orchestrator-level operations of the model, used to state
properties over every reachable interleaving step. -/
inductive Op
  | opStart
  | opStop
  | opSetAutoListen (v : Bool)
  | opSetLimits (a b : Option PyVal)
  | opSpeechChunk (wav : Bytes)
  | opProcessTurn (C : Collab) (wav : Bytes) (turnId tok : Nat)
  | opSpeak (C : Collab) (sentence : Str) (turnId tok : Nat)
  | opDelta (C : Collab) (turnId tok : Nat) (buf : TurnBuf) (d : Str)
  | opWait (turnId tok : Nat)
  | opFinally (turnId tok : Nat)
  | opMaybeAutoListen
  | opArmInterrupt

/-- The orchestrator-state effect of each operation. -/
def applyOp (op : Op) (o : Orch) : Orch :=
  match op with
  | .opStart => (start o).1
  | .opStop => (stop o).1
  | .opSetAutoListen v => { o with autoListen := v }
  | .opSetLimits a b => setResponseWordLimits o a b
  | .opSpeechChunk wav => (onSpeechChunk o wav).1
  | .opProcessTurn C wav turnId tok => (processTurn C o wav turnId tok).1
  | .opSpeak C sentence turnId tok => (speakSentence C o sentence turnId tok).1
  | .opDelta C turnId tok buf d => (onDeltaStep C turnId tok ⟨o, buf, []⟩ d).orch
  | .opWait turnId tok => (waitForPlayback o turnId tok).1
  | .opFinally turnId tok => (finallyPart o turnId tok).1
  | .opMaybeAutoListen => (maybeAutoListen o).1
  | .opArmInterrupt => (armInterruptListener o).1

end Orchestrator
namespace Orchestrator

/-- `SJ spoken text`: `text` is the interleaving of the sentences `spoken`
(in order) with whitespace-only padding — the sense in which the
concatenation of the spoken sentences equals the full reply "up to
stripped boundary whitespace". -/
inductive SJ : List Str → Str → Prop
  | nil : SJ [] []
  | addWS (l : List Str) (t w : Str) (hw : ∀ c ∈ w, pyIsSpace c = true)
      (h : SJ l t) : SJ l (t ++ w)
  | addSentence (l : List Str) (t s : Str) (hs : s ≠ [])
      (h : SJ l t) : SJ (l ++ [s]) (t ++ s)

/-- A sequence of `set_response_word_limits` calls applied in order. -/
def applyLimitOps (o : Orch) : List (Option PyVal × Option PyVal) → Orch
  | [] => o
  | p :: ps => applyLimitOps (setResponseWordLimits o p.1 p.2) ps

/-- The sentences spoken during a run, in order: the arguments of the
`synthesize` calls recorded in the event list. -/
def spokenSentences (evs : List Event) : List Str :=
  evs.filterMap fun e =>
    match e with
    | .ttsCall s => some s
    | _ => none

/-- Is this event an invocation of the orchestrator's `on_error`
notification? -/
def isErrorEv (e : Event) : Bool :=
  match e with
  | .errorFired _ => true
  | _ => false

/-- The turn-bookkeeping fields (global cancel flag, set tokens, active
turn and its token, listening policy) agree between two orchestrator
states. -/
def TurnFieldsEq (o o' : Orch) : Prop :=
  o'.cancelFlag = o.cancelFlag
  ∧ o'.cancelledTokens = o.cancelledTokens
  ∧ o'.activeTurnId = o.activeTurnId
  ∧ o'.activeTurnCancel = o.activeTurnCancel
  ∧ o'.autoListen = o.autoListen

/-- Collaborator-error handling of one turn (C4): a transcription
exception is caught and fires the orchestrator's error notification
exactly once; a chat-stream exception is caught inside the dialogue
service and surfaces through the service's own error callback — not the
orchestrator's error notification; synthesis exceptions are caught and
only logged, firing no error notification; in every case the turn
terminates gracefully (token cleared, `Listening` re-armed or `Idle` per
the auto-listen policy). -/
def ErrorHandlingSpec (C : Collab) (o : Orch) (wav : Bytes) (turnId tok : Nat) : Prop :=
  (∀ e, C.transcript wav = .error e →
    (processTurn C o wav turnId tok).2.countP isErrorEv = 1
    ∧ Event.errorFired e ∈ (processTurn C o wav turnId tok).2
    ∧ (processTurn C o wav turnId tok).1.state
        = (if o.autoListen then OState.listening else OState.idle)
    ∧ (processTurn C o wav turnId tok).1.activeTurnCancel = none)
  ∧ (∀ t m, C.transcript wav = .ok t → pyStrip t ≠ [] → C.chatRaises = some m →
    (processTurn C o wav turnId tok).2.countP isErrorEv = 0
    ∧ Event.serviceError m ∈ (processTurn C o wav turnId tok).2
    ∧ Event.turnComplete ∈ (processTurn C o wav turnId tok).2
    ∧ (processTurn C o wav turnId tok).1.state
        = (if o.autoListen then OState.listening else OState.idle)
    ∧ (processTurn C o wav turnId tok).1.activeTurnCancel = none)
  ∧ (∀ t, C.transcript wav = .ok t → pyStrip t ≠ [] →
      (∀ s, ∃ m, C.tts s = .error m) →
    (processTurn C o wav turnId tok).2.countP isErrorEv = 0
    ∧ Event.turnComplete ∈ (processTurn C o wav turnId tok).2
    ∧ (processTurn C o wav turnId tok).1.state
        = (if o.autoListen then OState.listening else OState.idle)
    ∧ (processTurn C o wav turnId tok).1.activeTurnCancel = none)

end Orchestrator
namespace Lemmas

open DialogueSvc

/-- With a word budget of `0`, the scan never finds a cut point. -/
theorem truncGo_zero : ∀ (cs : Str) (b : Bool), truncGo cs b 0 = none := by
  intro cs
  induction cs with
  | nil => intro b; simp [truncGo]
  | cons c cs ih =>
    intro b
    by_cases hc : pyIsSpace c <;> cases b <;>
      simp [truncGo, hc, ih]

/-- A successful scan returns a decomposition of the input whose remainder,
when non-empty, starts with a whitespace character (by maximality of the
`\S+` match whose end is the cut point). -/
theorem truncGo_decomp : ∀ (cs : Str) (b : Bool) (n : Nat) (r : Str),
    truncGo cs b n = some r →
    ∃ rest, cs = r ++ rest ∧ ∀ c t, rest = c :: t → pyIsSpace c = true := by
  intro cs
  induction cs with
  | nil =>
    intro b n r h
    simp only [truncGo] at h
    split at h
    · obtain rfl : ([] : Str) = r := Option.some.inj h
      exact ⟨[], rfl, by intro c t ht; cases ht⟩
    · cases h
  | cons c cs ih =>
    intro b n r h
    by_cases hc : pyIsSpace c
    · cases b with
      | true =>
        by_cases hn : n = 1
        · simp only [truncGo, hc, hn, if_true] at h
          obtain rfl : ([] : Str) = r := Option.some.inj h
          refine ⟨c :: cs, rfl, ?_⟩
          intro c' t ht
          obtain ⟨rfl, rfl⟩ : c = c' ∧ cs = t := by
            exact ⟨(List.cons.injEq _ _ _ _ ▸ ht).1, (List.cons.injEq _ _ _ _ ▸ ht).2⟩
          exact hc
        · simp only [truncGo, hc, hn, if_true, if_false] at h
          rcases Option.map_eq_some'.1 h with ⟨r', hr', hmap⟩
          rcases ih false (n - 1) r' hr' with ⟨rest, hcs, hrest⟩
          subst hmap
          exact ⟨rest, by simp [hcs], hrest⟩
      | false =>
        simp only [truncGo, hc, if_true, Bool.false_eq_true, if_false] at h
        rcases Option.map_eq_some'.1 h with ⟨r', hr', hmap⟩
        rcases ih false n r' hr' with ⟨rest, hcs, hrest⟩
        subst hmap
        exact ⟨rest, by simp [hcs], hrest⟩
    · simp only [truncGo, hc, if_false] at h
      rcases Option.map_eq_some'.1 h with ⟨r', hr', hmap⟩
      rcases ih true n r' hr' with ⟨rest, hcs, hrest⟩
      subst hmap
      exact ⟨rest, by simp [hcs], hrest⟩

/-- A cut point strictly inside the scanned text is stable under appending
further text: the first `n` word ends do not move. -/
theorem truncGo_append : ∀ (cs : Str) (b : Bool) (n : Nat) (r t : Str),
    truncGo cs b n = some r → r.length < cs.length →
    truncGo (cs ++ t) b n = some r := by
  intro cs
  induction cs with
  | nil =>
    intro b n r t h hl
    simp only [truncGo] at h
    split at h
    · obtain rfl : ([] : Str) = r := Option.some.inj h
      simp at hl
    · cases h
  | cons c cs ih =>
    intro b n r t h hl
    by_cases hc : pyIsSpace c
    · cases b with
      | true =>
        by_cases hn : n = 1
        · simp [truncGo, hc, hn] at h ⊢
          exact h
        · simp [truncGo, hc, hn] at h ⊢
          obtain ⟨r', hr', hmap⟩ := h
          subst hmap
          simp at hl
          exact ⟨r', ih false (n - 1) r' t hr' hl, rfl⟩
      | false =>
        simp [truncGo, hc] at h ⊢
        obtain ⟨r', hr', hmap⟩ := h
        subst hmap
        simp at hl
        exact ⟨r', ih false n r' t hr' hl, rfl⟩
    · simp [truncGo, hc] at h ⊢
      obtain ⟨r', hr', hmap⟩ := h
      subst hmap
      simp at hl
      exact ⟨r', ih true n r' t hr' hl, rfl⟩

/-- Conversely, a cut point strictly inside a prefix is already found when
scanning the prefix alone. -/
theorem truncGo_restrict : ∀ (a : Str) (b : Bool) (n : Nat) (r t : Str),
    truncGo (a ++ t) b n = some r → r.length < a.length →
    truncGo a b n = some r := by
  intro a
  induction a with
  | nil =>
    intro b n r t h hl
    simp at hl
  | cons c a ih =>
    intro b n r t h hl
    by_cases hc : pyIsSpace c
    · cases b with
      | true =>
        by_cases hn : n = 1
        · simp [truncGo, hc, hn] at h ⊢
          exact h
        · simp [truncGo, hc, hn] at h ⊢
          obtain ⟨r', hr', hmap⟩ := h
          subst hmap
          simp at hl
          exact ⟨r', ih false (n - 1) r' t hr' hl, rfl⟩
      | false =>
        simp [truncGo, hc] at h ⊢
        obtain ⟨r', hr', hmap⟩ := h
        subst hmap
        simp at hl
        exact ⟨r', ih false n r' t hr' hl, rfl⟩
    · simp [truncGo, hc] at h ⊢
      obtain ⟨r', hr', hmap⟩ := h
      subst hmap
      simp at hl
      exact ⟨r', ih true n r' t hr' hl, rfl⟩

end Lemmas

namespace Lemmas

open DialogueSvc

/-- When the text holds strictly more word ends than the budget `n ≥ 1`,
the scan finds a cut point strictly inside the text. -/
theorem truncGo_some_of_surplus : ∀ (cs : Str) (b : Bool) (n : Nat),
    1 ≤ n → n < countWordsGo cs b + b.toNat →
    ∃ r, truncGo cs b n = some r ∧ r.length < cs.length := by
  intro cs
  induction cs with
  | nil =>
    intro b n hn hlt
    exfalso
    cases b <;> simp [countWordsGo] at hlt <;> omega
  | cons c cs ih =>
    intro b n hn hlt
    by_cases hc : pyIsSpace c
    · cases b with
      | true =>
        by_cases hn1 : n = 1
        · subst hn1
          exact ⟨[], by simp [truncGo, hc], by simp⟩
        · simp only [countWordsGo, hc, if_true, Bool.toNat_true] at hlt
          obtain ⟨r', hr', hl'⟩ :=
            ih false (n - 1) (by omega) (by simp only [Bool.toNat_false]; omega)
          refine ⟨c :: r', ?_, by simpa using hl'⟩
          simp [truncGo, hc, hn1, hr']
      | false =>
        simp only [countWordsGo, hc, if_true, Bool.toNat_false] at hlt
        obtain ⟨r', hr', hl'⟩ := ih false n hn (by simp only [Bool.toNat_false]; omega)
        refine ⟨c :: r', ?_, by simpa using hl'⟩
        simp [truncGo, hc, hr']
    · have hlt' : n < countWordsGo cs true + 1 := by
        cases b <;>
          simp only [countWordsGo, hc, Bool.toNat_true, Bool.toNat_false,
            if_true, if_false, Bool.false_eq_true, ite_false, ite_true] at hlt <;>
          omega
      obtain ⟨r', hr', hl'⟩ :=
        ih true n hn (by simp only [Bool.toNat_true]; omega)
      refine ⟨c :: r', ?_, by simpa using hl'⟩
      simp [truncGo, hc, hr']

/-- The returned prefix holds exactly `n` word ends. -/
theorem truncGo_count : ∀ (cs : Str) (b : Bool) (n : Nat) (r : Str),
    truncGo cs b n = some r →
    countWordsGo r b + b.toNat = n := by
  intro cs
  induction cs with
  | nil =>
    intro b n r h
    simp only [truncGo] at h
    split at h
    · obtain rfl : ([] : Str) = r := Option.some.inj h
      rename_i hcond
      obtain ⟨hb, hn⟩ := hcond
      simp [countWordsGo, hb, hn]
    · cases h
  | cons c cs ih =>
    intro b n r h
    by_cases hc : pyIsSpace c
    · cases b with
      | true =>
        by_cases hn1 : n = 1
        · subst hn1
          simp [truncGo, hc] at h
          subst h
          simp [countWordsGo]
        · simp [truncGo, hc, hn1] at h
          obtain ⟨r', hr', hmap⟩ := h
          subst hmap
          have hn0 : n ≠ 0 := by
            intro h0
            rw [h0] at hr'
            simp [truncGo_zero] at hr'
          have := ih false (n - 1) r' hr'
          simp at this
          simp [countWordsGo, hc]
          omega
      | false =>
        simp [truncGo, hc] at h
        obtain ⟨r', hr', hmap⟩ := h
        subst hmap
        have := ih false n r' hr'
        simp at this
        simp [countWordsGo, hc]
        omega
    · simp [truncGo, hc] at h
      obtain ⟨r', hr', hmap⟩ := h
      subst hmap
      have := ih true n r' hr'
      simp at this
      cases b <;> simp [countWordsGo, hc] <;> omega

/-- Unfolding `truncateToWords` on a found cut. -/
theorem truncateToWords_of_some (text : Str) (L : Int) (hL : 0 < L) (r : Str)
    (h : truncGo text false L.toNat = some r) :
    truncateToWords text L = r := by
  rw [truncateToWords, if_neg (by omega), h]
  rfl

/-- Unfolding `truncateToWords` when no cut exists. -/
theorem truncateToWords_of_none (text : Str) (L : Int) (hL : 0 < L)
    (h : truncGo text false L.toNat = none) :
    truncateToWords text L = text := by
  rw [truncateToWords, if_neg (by omega), h]
  rfl

/-- Truncation that did not shorten the text is the identity. -/
theorem truncate_eq_of_not_lt (text : Str) (L : Int) (hL : 0 < L)
    (h : ¬ (truncateToWords text L).length < text.length) :
    truncateToWords text L = text := by
  cases htg : truncGo text false L.toNat with
  | none => exact truncateToWords_of_none text L hL htg
  | some r =>
    have hr := truncateToWords_of_some text L hL r htg
    obtain ⟨rest, hdec, -⟩ := truncGo_decomp text false L.toNat r htg
    rw [hr] at h ⊢
    cases rest with
    | nil => simpa using hdec.symm
    | cons x xs =>
      exfalso
      apply h
      rw [hdec]
      simp

/-- A string fixed by truncation has at most `L` words. -/
theorem count_le_of_truncate_fixed (acc : Str) (L : Int) (hL : 0 < L)
    (hInv : truncateToWords acc L = acc) : countWords acc ≤ L.toNat := by
  by_contra hgt
  push_neg at hgt
  obtain ⟨r, hr, hlen⟩ :=
    truncGo_some_of_surplus acc false L.toNat (by omega) (by simpa [countWords] using hgt)
  have := truncateToWords_of_some acc L hL r hr
  rw [hInv] at this
  subst this
  exact absurd hlen (lt_irrefl _)

/-- At a break, the already-accumulated text is untouched: the cut lies at
or beyond its end, so the trimmed text extends `acc`. -/
theorem trimmed_extends (acc d : Str) (L : Int) (hL : 0 < L)
    (hInv : truncateToWords acc L = acc) (r : Str)
    (hr : truncGo (acc ++ d) false L.toNat = some r) :
    acc ++ r.drop acc.length = r := by
  have hle : acc.length ≤ r.length := by
    by_contra hlt
    push_neg at hlt
    have hres := truncGo_restrict acc false L.toNat r d hr hlt
    have := truncateToWords_of_some acc L hL r hres
    rw [hInv] at this
    subst this
    exact absurd hlt (by omega)
  obtain ⟨rest, hdec, -⟩ := truncGo_decomp (acc ++ d) false L.toNat r hr
  have htake : r.take acc.length = acc := by
    have h1 : (acc ++ d).take acc.length = acc := List.take_left acc d
    rw [hdec] at h1
    rw [List.take_append_eq_append_take] at h1
    have : acc.length - r.length = 0 := by omega
    rw [this] at h1
    simpa using h1
  calc acc ++ r.drop acc.length
      = r.take acc.length ++ r.drop acc.length := by rw [htake]
    _ = r := List.take_append_drop _ _

end Lemmas

namespace Lemmas

open DialogueSvc

/-- Flattening the event-list wrapper of one `on_delta` call. -/
theorem flatten_out1 (e : Str) :
    (if e ≠ [] then [e] else ([] : List Str)).flatten = e := by
  by_cases he : e = [] <;> simp [he]

/-- Main invariant of the `send_stream` delta loop: starting from an
accumulation that truncation leaves unchanged, and given that the whole
stream exceeds the word limit, the loop ends with the truncation of the
full text, the emitted deltas are exactly the text added to the
accumulation, and the loop consumes no delta beyond the first prefix that
exceeds the limit. -/
theorem sendStreamGo_spec (L : Int) (hL : 0 < L) :
    ∀ (ds : List Str) (acc : Str),
      truncateToWords acc L = acc →
      L.toNat < countWords (acc ++ ds.flatten) →
      (sendStreamGo L ds acc).accumulated = truncateToWords (acc ++ ds.flatten) L
      ∧ acc ++ (sendStreamGo L ds acc).emitted.flatten = (sendStreamGo L ds acc).accumulated
      ∧ ∀ m, L.toNat < countWords (acc ++ (ds.take m).flatten) →
          (sendStreamGo L ds acc).consumed ≤ m := by
  intro ds
  induction ds with
  | nil =>
    intro acc hInv hw
    exfalso
    have := count_le_of_truncate_fixed acc L hL hInv
    simp at hw
    omega
  | cons d ds ih =>
    intro acc hInv hw
    by_cases hbr : (truncateToWords (acc ++ d) L).length < (acc ++ d).length
    · -- the loop breaks on this delta
      obtain ⟨r, htg⟩ : ∃ r, truncGo (acc ++ d) false L.toNat = some r := by
        cases htg : truncGo (acc ++ d) false L.toNat with
        | none =>
          exfalso
          rw [truncateToWords_of_none (acc ++ d) L hL htg] at hbr
          exact absurd hbr (lt_irrefl _)
        | some r => exact ⟨r, rfl⟩
      have htr : truncateToWords (acc ++ d) L = r :=
        truncateToWords_of_some (acc ++ d) L hL r htg
      have hrlen : r.length < (acc ++ d).length := by rw [htr] at hbr; exact hbr
      have hout : sendStreamGo L (d :: ds) acc =
          ⟨if r.drop acc.length ≠ [] then [r.drop acc.length] else [], r, 1⟩ := by
        simp only [sendStreamGo, if_pos hL, htr, if_pos hrlen]
      have happ : truncGo ((acc ++ d) ++ ds.flatten) false L.toNat = some r :=
        truncGo_append (acc ++ d) false L.toNat r ds.flatten htg hrlen
      refine ⟨?_, ?_, ?_⟩
      · rw [hout]
        have : acc ++ (d :: ds).flatten = (acc ++ d) ++ ds.flatten := by simp
        rw [this, truncateToWords_of_some _ L hL r happ]
      · rw [hout]
        simp only [flatten_out1]
        exact trimmed_extends acc d L hL hInv r htg
      · intro m hm
        rw [hout]
        match m with
        | 0 =>
          exfalso
          simp only [List.take_zero, List.flatten_nil, List.append_nil] at hm
          have := count_le_of_truncate_fixed acc L hL hInv
          omega
        | Nat.succ m => exact Nat.succ_le_succ (Nat.zero_le m)
    · -- no break: the candidate passes through unchanged
      have htr : truncateToWords (acc ++ d) L = acc ++ d :=
        truncate_eq_of_not_lt (acc ++ d) L hL hbr
      have hout : sendStreamGo L (d :: ds) acc =
          ⟨(if d ≠ [] then [d] else []) ++ (sendStreamGo L ds (acc ++ d)).emitted,
            (sendStreamGo L ds (acc ++ d)).accumulated,
            (sendStreamGo L ds (acc ++ d)).consumed + 1⟩ := by
        have hne : ¬ (acc ++ d).length < (acc ++ d).length := lt_irrefl _
        simp only [sendStreamGo, if_pos hL, htr, if_neg hne, List.drop_left]
      have hw' : L.toNat < countWords ((acc ++ d) ++ ds.flatten) := by
        have : (acc ++ d) ++ ds.flatten = acc ++ (d :: ds).flatten := by simp
        rw [this]
        exact hw
      obtain ⟨ih1, ih2, ih3⟩ := ih (acc ++ d) htr hw'
      refine ⟨?_, ?_, ?_⟩
      · rw [hout]
        have : (acc ++ d) ++ ds.flatten = acc ++ (d :: ds).flatten := by simp
        rw [ih1, this]
      · rw [hout]
        simp only [List.flatten_append, flatten_out1]
        calc acc ++ (d ++ (sendStreamGo L ds (acc ++ d)).emitted.flatten)
            = (acc ++ d) ++ (sendStreamGo L ds (acc ++ d)).emitted.flatten := by
              rw [List.append_assoc]
          _ = (sendStreamGo L ds (acc ++ d)).accumulated := ih2
      · intro m hm
        rw [hout]
        match m with
        | 0 =>
          exfalso
          simp only [List.take_zero, List.flatten_nil, List.append_nil] at hm
          have := count_le_of_truncate_fixed acc L hL hInv
          omega
        | Nat.succ m =>
          have hm' : L.toNat < countWords ((acc ++ d) ++ (ds.take m).flatten) := by
            have : (acc ++ d) ++ (ds.take m).flatten
                = acc ++ ((d :: ds).take (m + 1)).flatten := by simp
            rw [this]
            exact hm
          have := ih3 m hm'
          simpa using Nat.succ_le_succ this

end Lemmas

namespace Claims

open DialogueSvc Lemmas

/-- C2 — Word-limit truncation: for every streamed reply whose total
whitespace-delimited word count exceeds the configured positive limit, the
concatenation of the deltas emitted via `on_delta` contains exactly
`limit` words and equals the accumulated text truncated at the end of the
`limit`-th word, and the delta stream is not iterated beyond the first
prefix of deltas whose word count exceeds the limit. -/
theorem C2_word_limit_truncation (ds : List Str) (L : Int) (hL : 0 < L)
    (hw : L.toNat < countWords ds.flatten) :
    countWords (sendStreamGo L ds []).emitted.flatten = L.toNat
    ∧ (sendStreamGo L ds []).emitted.flatten = truncateToWords ds.flatten L
    ∧ ∀ m, L.toNat < countWords ((ds.take m).flatten) →
        (sendStreamGo L ds []).consumed ≤ m := by
  have hInv : truncateToWords ([] : Str) L = [] := by
    rw [truncateToWords]
    split
    · rfl
    · have : truncGo ([] : Str) false L.toNat = none := by
        simp [truncGo]
      rw [this]
      rfl
  obtain ⟨h1, h2, h3⟩ :=
    sendStreamGo_spec L hL ds [] hInv (by simpa using hw)
  have h2' : (sendStreamGo L ds []).emitted.flatten = (sendStreamGo L ds []).accumulated := by
    simpa using h2
  have hfull : (sendStreamGo L ds []).emitted.flatten = truncateToWords ds.flatten L := by
    rw [h2', h1]
    simp
  refine ⟨?_, hfull, fun m hm => h3 m (by simpa using hm)⟩
  obtain ⟨r, hr, -⟩ :=
    truncGo_some_of_surplus ds.flatten false L.toNat (by omega)
      (by simpa [countWords, Bool.toNat_false] using hw)
  have hcount := truncGo_count ds.flatten false L.toNat r hr
  rw [hfull, truncateToWords_of_some ds.flatten L hL r hr]
  simpa [countWords, Bool.toNat_false] using hcount

/-- Witness for C2 at the stream `["one ", "two ", "three"]` with limit 2:
the hypotheses hold and the theorem applies. -/
theorem C2_word_limit_truncation_witness :
    (0 : Int) < 2
    ∧ (2 : Int).toNat <
        countWords [['o','n','e',' '], ['t','w','o',' '], ['t','h','r','e','e']].flatten
    ∧ (countWords
          (sendStreamGo 2 [['o','n','e',' '], ['t','w','o',' '], ['t','h','r','e','e']] []).emitted.flatten
          = (2 : Int).toNat
        ∧ (sendStreamGo 2 [['o','n','e',' '], ['t','w','o',' '], ['t','h','r','e','e']] []).emitted.flatten
          = truncateToWords [['o','n','e',' '], ['t','w','o',' '], ['t','h','r','e','e']].flatten 2
        ∧ ∀ m, (2 : Int).toNat <
              countWords (([['o','n','e',' '], ['t','w','o',' '], ['t','h','r','e','e']].take m).flatten) →
            (sendStreamGo 2 [['o','n','e',' '], ['t','w','o',' '], ['t','h','r','e','e']] []).consumed ≤ m) :=
  ⟨by decide, by decide,
    C2_word_limit_truncation [['o','n','e',' '], ['t','w','o',' '], ['t','h','r','e','e']] 2
      (by decide) (by decide)⟩

end Claims

namespace Lemmas

open Orchestrator

/-- `_clamp_word_limit` always lands inside `[10, 500]`. -/
theorem clampWordLimit_bounds (v : PyVal) (d : Int) :
    10 ≤ clampWordLimit v d ∧ clampWordLimit v d ≤ 500 := by
  cases v <;> simp [clampWordLimit] <;> omega

/-- One `set_response_word_limits` call keeps both limits in range. -/
theorem setLimits_bounds (o : Orch) (a b : Option PyVal)
    (h1 : 10 ≤ o.maxWordsAuto) (h2 : o.maxWordsAuto ≤ 500)
    (h3 : 10 ≤ o.maxWordsManual) (h4 : o.maxWordsManual ≤ 500) :
    10 ≤ (setResponseWordLimits o a b).maxWordsAuto
    ∧ (setResponseWordLimits o a b).maxWordsAuto ≤ 500
    ∧ 10 ≤ (setResponseWordLimits o a b).maxWordsManual
    ∧ (setResponseWordLimits o a b).maxWordsManual ≤ 500 := by
  cases a <;> cases b <;>
    simp [setResponseWordLimits, clampWordLimit_bounds, h1, h2, h3, h4] <;>
    first
      | exact ⟨(clampWordLimit_bounds _ _).1, (clampWordLimit_bounds _ _).2⟩
      | exact ⟨(clampWordLimit_bounds _ _).1, (clampWordLimit_bounds _ _).2,
          (clampWordLimit_bounds _ _).1, (clampWordLimit_bounds _ _).2⟩

/-- Any sequence of `set_response_word_limits` calls keeps both limits in
range. -/
theorem applyLimitOps_bounds :
    ∀ (ops : List (Option PyVal × Option PyVal)) (o : Orch),
      10 ≤ o.maxWordsAuto → o.maxWordsAuto ≤ 500 →
      10 ≤ o.maxWordsManual → o.maxWordsManual ≤ 500 →
      10 ≤ (applyLimitOps o ops).maxWordsAuto
      ∧ (applyLimitOps o ops).maxWordsAuto ≤ 500
      ∧ 10 ≤ (applyLimitOps o ops).maxWordsManual
      ∧ (applyLimitOps o ops).maxWordsManual ≤ 500 := by
  intro ops
  induction ops with
  | nil => intro o h1 h2 h3 h4; exact ⟨h1, h2, h3, h4⟩
  | cons p ps ih =>
    intro o h1 h2 h3 h4
    obtain ⟨g1, g2, g3, g4⟩ := setLimits_bounds o p.1 p.2 h1 h2 h3 h4
    exact ih (setResponseWordLimits o p.1 p.2) g1 g2 g3 g4

end Lemmas

namespace Claims

open Orchestrator Lemmas

/-- C9 — `start()` idempotence: whenever the orchestrator is out of `Idle`
(in particular in `Listening` after a first `start()`), a further `start()`
returns the state unchanged and fires no notification — so no state change,
no second detector instance created or armed. -/
theorem C9_start_idempotent (o : Orch) (h : o.state ≠ OState.idle) :
    start o = (o, [])
    ∧ (start o).1.state = o.state
    ∧ (start o).1.vadCounter = o.vadCounter
    ∧ (start o).1.vad = o.vad := by
  have : start o = (o, []) := by
    rw [start, if_pos h]
  exact ⟨this, by rw [this], by rw [this], by rw [this]⟩

/-- Witness for C9: after `start()` on a fresh orchestrator the state is
`Listening`, and the theorem applies to the second `start()`. -/
theorem C9_start_idempotent_witness :
    ((start initOrch).1.state ≠ OState.idle)
    ∧ (start (start initOrch).1 = ((start initOrch).1, [])
      ∧ (start (start initOrch).1).1.state = (start initOrch).1.state
      ∧ (start (start initOrch).1).1.vadCounter = (start initOrch).1.vadCounter
      ∧ (start (start initOrch).1).1.vad = (start initOrch).1.vad) :=
  ⟨by decide, C9_start_idempotent (start initOrch).1 (by decide)⟩

/-- C10 — Word-limit clamping invariant: from construction onward both
response word limits stay inside `[10, 500]` under any sequence of
`set_response_word_limits` calls; an integer-convertible argument is
clamped into that range, a non-integer-convertible argument leaves the
corresponding limit at its previous value, and a `None` argument leaves it
unchanged. -/
theorem C10_word_limit_clamping (ops : List (Option PyVal × Option PyVal)) (k : Nat) :
    (10 ≤ (applyLimitOps initOrch (ops.take k)).maxWordsAuto
      ∧ (applyLimitOps initOrch (ops.take k)).maxWordsAuto ≤ 500
      ∧ 10 ≤ (applyLimitOps initOrch (ops.take k)).maxWordsManual
      ∧ (applyLimitOps initOrch (ops.take k)).maxWordsManual ≤ 500)
    ∧ (∀ (o : Orch) (n : Int) (b : Option PyVal),
        (setResponseWordLimits o (some (.intLike n)) b).maxWordsAuto = max 10 (min 500 n))
    ∧ (∀ (o : Orch) (a : Option PyVal) (n : Int),
        (setResponseWordLimits o a (some (.intLike n))).maxWordsManual = max 10 (min 500 n))
    ∧ (∀ (o : Orch) (b : Option PyVal),
        10 ≤ o.maxWordsAuto → o.maxWordsAuto ≤ 500 →
        (setResponseWordLimits o (some .badValue) b).maxWordsAuto = o.maxWordsAuto)
    ∧ (∀ (o : Orch) (a : Option PyVal),
        10 ≤ o.maxWordsManual → o.maxWordsManual ≤ 500 →
        (setResponseWordLimits o a (some .badValue)).maxWordsManual = o.maxWordsManual)
    ∧ (∀ (o : Orch) (b : Option PyVal),
        (setResponseWordLimits o none b).maxWordsAuto = o.maxWordsAuto)
    ∧ (∀ (o : Orch) (a : Option PyVal),
        (setResponseWordLimits o a none).maxWordsManual = o.maxWordsManual) := by
  refine ⟨?_, ?_, ?_, ?_, ?_, ?_, ?_⟩
  · exact applyLimitOps_bounds (ops.take k) initOrch (by decide) (by decide)
      (by decide) (by decide)
  · intro o n b
    cases b <;> simp [setResponseWordLimits, clampWordLimit]
  · intro o a n
    cases a <;> simp [setResponseWordLimits, clampWordLimit]
  · intro o b h1 h2
    cases b <;> simp [setResponseWordLimits, clampWordLimit] <;> omega
  · intro o a h1 h2
    cases a <;> simp [setResponseWordLimits, clampWordLimit] <;> omega
  · intro o b
    cases b <;> simp [setResponseWordLimits]
  · intro o a
    cases a <;> simp [setResponseWordLimits]

end Claims

namespace Lemmas

open VAD

/-- Shape of every chunk finalized by the pause branch of the loop body:
the buffered frames are non-empty (the silent frame that completed the
pause is among them) and the emitted bytes follow the minimum-duration
check verbatim. -/
theorem step_chunk_shape (p : Params) (s : St) (f : Frame) (ch : Chunk)
    (h : (step p s f).2 = some ch) :
    ch.frames ≠ []
    ∧ ch.wav = (if p.minSpeechFrames ≤ ch.speechCount then toWav ch.frames else []) := by
  simp only [step] at h
  split_ifs at h
  all_goals try exact Option.noConfusion h
  all_goals
    obtain rfl : _ = ch := Option.some.inj h
    refine ⟨by simp, ?_⟩
    split_ifs <;> simp_all

/-- Chunk shape holds for every chunk of a run. -/
theorem run_chunk_shape (p : Params) :
    ∀ (fs : List Frame) (s : St), ∀ ch ∈ (run p s fs).2,
      ch.frames ≠ []
      ∧ ch.wav = (if p.minSpeechFrames ≤ ch.speechCount then toWav ch.frames else []) := by
  intro fs
  induction fs with
  | nil => intro s ch hch; simp [run] at hch
  | cons f fs ih =>
    intro s ch hch
    simp only [run, List.mem_append] at hch
    rcases hch with hch | hch
    · rcases hstep : (step p s f).2 with - | c
      · rw [hstep] at hch; simp at hch
      · rw [hstep] at hch
        simp at hch
        subst hch
        exact step_chunk_shape p s f ch hstep
    · exact ih (step p s f).1 ch hch

/-- Chunk shape holds for the flush chunk as well. -/
theorem flush_chunk_shape (p : Params) (s : St) (ch : Chunk)
    (h : flush p s = some ch) :
    ch.frames ≠ []
    ∧ ch.wav = (if p.minSpeechFrames ≤ ch.speechCount then toWav ch.frames else []) := by
  unfold flush at h
  split_ifs at h
  all_goals try exact Option.noConfusion h
  all_goals
    obtain rfl : _ = ch := Option.some.inj h
    refine ⟨by assumption, ?_⟩
    split_ifs <;> simp_all

/-- Chunk shape for every chunk of a full listening session. -/
theorem listenLoop_chunk_shape (p : Params) (frames : List Frame) :
    ∀ ch ∈ listenLoop p frames,
      ch.frames ≠ []
      ∧ ch.wav = (if p.minSpeechFrames ≤ ch.speechCount then toWav ch.frames else []) := by
  intro ch hch
  simp only [listenLoop, List.mem_append] at hch
  rcases hch with hch | hch
  · exact run_chunk_shape p frames (initSt p) ch hch
  · rcases hfl : flush p (run p (initSt p) frames).1 with - | c
    · rw [hfl] at hch; simp at hch
    · rw [hfl] at hch
      simp at hch
      subst hch
      exact flush_chunk_shape p _ ch hfl

/-- The minimum-duration floor computed by `__init__` matches the claim's
formula for non-negative `min_speech_seconds`. -/
theorem mkParams_minSpeechFrames (pause : ℚ) (aggr : Int) (minS : ℚ) (h : 0 ≤ minS) :
    (mkParams pause aggr minS).minSpeechFrames
      = max 1 (Int.toNat ⌊minS * 1000 / 30⌋) := by
  have hmax : max (0 : ℚ) minS = minS := max_eq_right h
  have htr : pyTrunc (minS * 1000 / 30) = ⌊minS * 1000 / 30⌋ := by
    rw [pyTrunc, if_pos (by positivity)]
  simp only [mkParams, hmax, htr]

end Lemmas

namespace Claims

open VAD Lemmas

/-- C5 — Minimum-duration floor: every utterance finalized by the
pause branch or by the stream-termination flush is emitted via
`on_speech_chunk` if and only if its confirmed-speech frame count is at
least `max 1 ⌊min_speech_seconds * 1000 / 30⌋`; in particular a speech run
below the floor is never emitted. -/
theorem C5_min_duration_floor (pause : ℚ) (aggr : Int) (minS : ℚ) (hmin : 0 ≤ minS)
    (frames : List Frame) (ch : Chunk)
    (hch : ch ∈ listenLoop (mkParams pause aggr minS) frames) :
    ch.wav ≠ [] ↔ max 1 (Int.toNat ⌊minS * 1000 / 30⌋) ≤ ch.speechCount := by
  obtain ⟨hfr, hwav⟩ := listenLoop_chunk_shape _ frames ch hch
  rw [← mkParams_minSpeechFrames pause aggr minS hmin]
  constructor
  · intro hne
    by_contra hlt
    rw [hwav, if_neg hlt] at hne
    exact hne rfl
  · intro hle
    rw [hwav, if_pos hle, toWav, if_neg hfr]
    exact hfr

/-- Witness for C5: aggressiveness 0, pause and minimum duration 0.03 s
(one frame each); a loud classified frame followed by silence emits a
chunk with one confirmed frame, and the theorem applies to it. -/
theorem C5_min_duration_floor_witness :
    (0 : ℚ) ≤ 3/100
    ∧ (⟨[⟨1000, true, 0⟩, ⟨0, false, 1⟩], 1, [⟨1000, true, 0⟩, ⟨0, false, 1⟩]⟩ : Chunk)
        ∈ listenLoop (mkParams (3/100) 0 (3/100)) [⟨1000, true, 0⟩, ⟨0, false, 1⟩]
    ∧ ((⟨[⟨1000, true, 0⟩, ⟨0, false, 1⟩], 1, [⟨1000, true, 0⟩, ⟨0, false, 1⟩]⟩ : Chunk).wav ≠ []
        ↔ max 1 (Int.toNat ⌊(3/100 : ℚ) * 1000 / 30⌋)
            ≤ (⟨[⟨1000, true, 0⟩, ⟨0, false, 1⟩], 1, [⟨1000, true, 0⟩, ⟨0, false, 1⟩]⟩ : Chunk).speechCount) :=
  have hmem : (⟨[⟨1000, true, 0⟩, ⟨0, false, 1⟩], 1,
        [⟨1000, true, 0⟩, ⟨0, false, 1⟩]⟩ : Chunk)
      ∈ listenLoop (mkParams (3/100) 0 (3/100)) [⟨1000, true, 0⟩, ⟨0, false, 1⟩] := by
    have : listenLoop (mkParams (3/100) 0 (3/100)) [⟨1000, true, 0⟩, ⟨0, false, 1⟩]
        = [⟨[⟨1000, true, 0⟩, ⟨0, false, 1⟩], 1, [⟨1000, true, 0⟩, ⟨0, false, 1⟩]⟩] := by
      norm_num [listenLoop, run, step, initSt, mkParams, isSpeechFrame, energyGate, flush,
        toWav, pyTrunc, energyFloorByAggr, noiseMultiplierByAggr, triggerFramesByAggr,
        noiseAdaptAlpha]
    rw [this]
    exact List.mem_singleton.mpr rfl
  ⟨by norm_num, hmem,
    C5_min_duration_floor (3/100) 0 (3/100) (by norm_num)
      [⟨1000, true, 0⟩, ⟨0, false, 1⟩] _ hmem⟩

end Claims

namespace Lemmas

open VAD

/-- Running on an appended trace composes. -/
theorem run_append (p : Params) :
    ∀ (as bs : List Frame) (s : St),
      run p s (as ++ bs)
        = ((run p (run p s as).1 bs).1, (run p s as).2 ++ (run p (run p s as).1 bs).2) := by
  intro as
  induction as with
  | nil => intro bs s; simp [run]
  | cons a as ih =>
    intro bs s
    simp only [List.cons_append, run, List.append_eq, ih, List.append_assoc]

/-- During the candidate phase (speech-classified frames arriving while
not yet in a confirmed run, too few to trigger), the loop only accumulates
the frames into the candidate buffer: nothing is emitted, the utterance
buffer, the confirmed count and the noise estimate are untouched. -/
theorem candidate_phase (p : Params) :
    ∀ (fs : List Frame) (s : St),
      s.inSpeech = false →
      (∀ f ∈ fs, isSpeechFrame p f s.noiseRms = true) →
      s.candidateSpeechCount + fs.length < p.triggerSpeechFrames →
      (run p s fs).2 = []
      ∧ (run p s fs).1.inSpeech = false
      ∧ (run p s fs).1.candidateFrames = s.candidateFrames ++ fs
      ∧ (run p s fs).1.candidateSpeechCount = s.candidateSpeechCount + fs.length
      ∧ (run p s fs).1.speechFrames = s.speechFrames
      ∧ (run p s fs).1.speechFrameCount = s.speechFrameCount
      ∧ (run p s fs).1.noiseRms = s.noiseRms := by
  intro fs
  induction fs with
  | nil => intro s h1 h2 h3; simp [run, h1]
  | cons f fs ih =>
    intro s h1 h2 h3
    have hf : isSpeechFrame p f s.noiseRms = true := h2 f (by simp)
    have hnt : ¬ p.triggerSpeechFrames ≤ s.candidateSpeechCount + 1 := by
      simp at h3
      omega
    have hstep : step p s f =
        ({ s with silentFrameCount := 0,
                  candidateFrames := s.candidateFrames ++ [f],
                  candidateSpeechCount := s.candidateSpeechCount + 1 }, none) := by
      simp only [step, hf, if_true, h1, Bool.false_eq_true, if_false, if_neg hnt]
    have hrun : run p s (f :: fs)
        = ((run p (step p s f).1 fs).1, (step p s f).2.toList ++ (run p (step p s f).1 fs).2) := by
      simp [run]
    obtain ⟨g1, g2, g3, g4, g5, g6, g7⟩ :=
      ih ({ s with silentFrameCount := 0,
                   candidateFrames := s.candidateFrames ++ [f],
                   candidateSpeechCount := s.candidateSpeechCount + 1 })
        (by simp [h1]) (by intro x hx; exact h2 x (by simp [hx])) (by simp; simp at h3; omega)
    rw [hrun, hstep]
    refine ⟨by simpa using g1, by simpa using g2, ?_, ?_, by simpa using g5,
      by simpa using g6, by simpa using g7⟩
    · rw [g3]
      simp
    · rw [g4]
      simp
      omega

end Lemmas

namespace Lemmas

open VAD

/-- The onset trigger derived from any aggressiveness input lies in
`[1, 4]` and equals `level + 1` for the clamped level. -/
theorem triggerFrames_range (l : Nat) :
    1 ≤ triggerFramesByAggr l ∧ triggerFramesByAggr l ≤ 4
    ∧ (l ≤ 3 → triggerFramesByAggr l = l + 1) := by
  rcases l with _ | _ | _ | _ | n
  · exact ⟨by simp [triggerFramesByAggr], by simp [triggerFramesByAggr],
      fun _ => by simp [triggerFramesByAggr]⟩
  · exact ⟨by simp [triggerFramesByAggr], by simp [triggerFramesByAggr],
      fun _ => by simp [triggerFramesByAggr]⟩
  · exact ⟨by simp [triggerFramesByAggr], by simp [triggerFramesByAggr],
      fun _ => by simp [triggerFramesByAggr]⟩
  · exact ⟨by simp [triggerFramesByAggr], by simp [triggerFramesByAggr],
      fun _ => by simp [triggerFramesByAggr]⟩
  · refine ⟨by simp [triggerFramesByAggr], by simp [triggerFramesByAggr], fun h => ?_⟩
    omega

/-- Onset behaviour holds for every parameter set with a positive trigger.
-/
theorem onsetSpec_of_trigger_pos (p : Params) (s : St)
    (hN : 1 ≤ p.triggerSpeechFrames)
    (hin : s.inSpeech = false) (hcf : s.candidateFrames = [])
    (hcc : s.candidateSpeechCount = 0) :
    OnsetSpec p s := by
  constructor
  · intro fs g hsp hlen hg
    have hlt : s.candidateSpeechCount + fs.length < p.triggerSpeechFrames := by
      rw [hcc]; omega
    obtain ⟨g1, g2, g3, g4, g5, g6, g7⟩ := candidate_phase p fs s hin hsp hlt
    rw [run_append]
    set s1 := (run p s fs).1 with hs1
    have hgstep : step p s1 g =
        ({ s1 with candidateFrames := [], candidateSpeechCount := 0,
                   noiseRms := (1 - noiseAdaptAlpha) * s1.noiseRms
                     + noiseAdaptAlpha * g.rms }, none) := by
      have hg' : isSpeechFrame p g s1.noiseRms = false := by rw [g7]; exact hg
      simp only [step, hg', Bool.false_eq_true, if_false, g2]
    have hrun1 : run p s1 [g]
        = ((step p s1 g).1, (step p s1 g).2.toList) := by
      simp [run]
    rw [hrun1, hgstep]
    refine ⟨by simp [g1], by simpa using g2, by simp, by simp, by simpa using g5⟩
  · intro fs hsp hlen
    have hne : fs ≠ [] := by
      intro h
      rw [h] at hlen
      simp at hlen
      omega
    have hsplit : fs.dropLast ++ [fs.getLast hne] = fs :=
      List.dropLast_append_getLast hne
    have hlen' : fs.dropLast.length = p.triggerSpeechFrames - 1 := by
      rw [List.length_dropLast, hlen]
    have hlt : s.candidateSpeechCount + fs.dropLast.length < p.triggerSpeechFrames := by
      rw [hcc, hlen']; omega
    have hspInit : ∀ f ∈ fs.dropLast, isSpeechFrame p f s.noiseRms = true := by
      intro f hf
      apply hsp
      rw [← hsplit]
      exact List.mem_append_left _ hf
    obtain ⟨g1, g2, g3, g4, g5, g6, g7⟩ := candidate_phase p fs.dropLast s hin hspInit hlt
    have hlast : isSpeechFrame p (fs.getLast hne) s.noiseRms = true :=
      hsp _ (List.getLast_mem hne)
    rw [← hsplit, run_append]
    set s1 := (run p s fs.dropLast).1 with hs1
    have htrig : p.triggerSpeechFrames ≤ s1.candidateSpeechCount + 1 := by
      rw [g4, hcc, hlen']; omega
    have hstep : step p s1 (fs.getLast hne) =
        ({ s1 with silentFrameCount := 0,
                   inSpeech := true,
                   speechFrames := s1.speechFrames ++ (s1.candidateFrames ++ [fs.getLast hne]),
                   speechFrameCount := s1.speechFrameCount + (s1.candidateSpeechCount + 1),
                   candidateFrames := [],
                   candidateSpeechCount := 0 }, none) := by
      have hl' : isSpeechFrame p (fs.getLast hne) s1.noiseRms = true := by
        rw [g7]; exact hlast
      simp only [step, hl', if_true, g2, Bool.false_eq_true, if_false, if_pos htrig]
    have hrun1 : run p s1 [fs.getLast hne]
        = ((step p s1 (fs.getLast hne)).1, (step p s1 (fs.getLast hne)).2.toList) := by
      simp [run]
    rw [hrun1, hstep]
    refine ⟨by simp [g1], by simp, ?_, ?_, by simp, by simp⟩
    · simp only
      rw [g5, g3, hcf]
      simp [hsplit]
    · simp only
      rw [g6, g4, hcc, hlen']
      omega

end Lemmas

namespace Claims

open VAD Lemmas

/-- C6 — Onset confirmation: the trigger `N` derived from the
aggressiveness level is `level + 1 ∈ [1, 4]`; from any state outside a
speech run with an empty candidate buffer, at most `N - 1` consecutive
speech-classified frames followed by a non-speech frame produce no
utterance and reset the candidate buffer, while `N` consecutive
speech-classified frames confirm the run and prepend all `N` candidate
frames to the utterance buffer, so no audio from the candidate phase is
lost. -/
theorem C6_onset_confirmation (pause : ℚ) (aggr : Int) (minS : ℚ) (s : St)
    (hin : s.inSpeech = false) (hcf : s.candidateFrames = [])
    (hcc : s.candidateSpeechCount = 0) :
    (1 ≤ (mkParams pause aggr minS).triggerSpeechFrames
      ∧ (mkParams pause aggr minS).triggerSpeechFrames ≤ 4
      ∧ (mkParams pause aggr minS).triggerSpeechFrames
          = (max 0 (min 3 aggr)).toNat + 1)
    ∧ OnsetSpec (mkParams pause aggr minS) s := by
  have hlev : (max 0 (min 3 aggr)).toNat ≤ 3 := by omega
  obtain ⟨r1, r2, r3⟩ := triggerFrames_range (max 0 (min 3 aggr)).toNat
  have htr : (mkParams pause aggr minS).triggerSpeechFrames
      = triggerFramesByAggr (max 0 (min 3 aggr)).toNat := rfl
  refine ⟨⟨by rw [htr]; exact r1, by rw [htr]; exact r2, by rw [htr]; exact r3 hlev⟩, ?_⟩
  exact onsetSpec_of_trigger_pos _ s (by rw [htr]; exact r1) hin hcf hcc

/-- Witness for C6 at aggressiveness 1 from the initial state. -/
theorem C6_onset_confirmation_witness :
    ((initSt (mkParams (3/2) 1 (1/2))).inSpeech = false)
    ∧ ((initSt (mkParams (3/2) 1 (1/2))).candidateFrames = [])
    ∧ ((initSt (mkParams (3/2) 1 (1/2))).candidateSpeechCount = 0)
    ∧ ((1 ≤ (mkParams (3/2) 1 (1/2)).triggerSpeechFrames
        ∧ (mkParams (3/2) 1 (1/2)).triggerSpeechFrames ≤ 4
        ∧ (mkParams (3/2) 1 (1/2)).triggerSpeechFrames
            = (max 0 (min 3 (1 : Int))).toNat + 1)
      ∧ OnsetSpec (mkParams (3/2) 1 (1/2)) (initSt (mkParams (3/2) 1 (1/2)))) :=
  ⟨rfl, rfl, rfl,
    C6_onset_confirmation (3/2) 1 (1/2) (initSt (mkParams (3/2) 1 (1/2))) rfl rfl rfl⟩

end Claims

namespace Lemmas

open VAD

/-- A frame the underlying classifier rejects is never speech, whatever
the energy gate says. -/
theorem isSpeechFrame_of_not_vad (p : Params) (f : Frame) (x : ℚ)
    (hf : f.vadSpeech = false) : isSpeechFrame p f x = false := by
  rw [isSpeechFrame]
  split
  · rfl
  · exact hf

/-- The noise estimate after one loop iteration: smoothed exactly when the
frame is non-speech and the detector is outside a speech run, frozen
otherwise. -/
theorem step_noise (p : Params) (s : St) (f : Frame) :
    (step p s f).1.noiseRms
      = (if isSpeechFrame p f s.noiseRms = false ∧ s.inSpeech = false
         then (1 - noiseAdaptAlpha) * s.noiseRms + noiseAdaptAlpha * f.rms
         else s.noiseRms) := by
  simp only [step]
  split_ifs <;> simp_all

/-- One iteration on a classifier-rejected frame outside a run: stays
outside and smooths the estimate. -/
theorem silent_step (p : Params) (f : Frame) (hf : f.vadSpeech = false)
    (s : St) (hin : s.inSpeech = false) :
    (step p s f).1.inSpeech = false
    ∧ (step p s f).1.noiseRms
        = (1 - noiseAdaptAlpha) * s.noiseRms + noiseAdaptAlpha * f.rms := by
  have hsp : isSpeechFrame p f s.noiseRms = false := isSpeechFrame_of_not_vad p f _ hf
  constructor
  · simp [step, hsp, hin]
  · simp [step, hsp, hin]

/-- Iterating the same classifier-rejected frame: the run flag stays down
and the estimate follows the exponential-smoothing recurrence. -/
theorem silent_iter (p : Params) (f : Frame) (hf : f.vadSpeech = false) :
    ∀ (k : Nat) (s : St), s.inSpeech = false →
      (stepIter p f k s).inSpeech = false
      ∧ (stepIter p f (k + 1) s).noiseRms
          = (1 - noiseAdaptAlpha) * (stepIter p f k s).noiseRms
            + noiseAdaptAlpha * f.rms := by
  intro k
  induction k with
  | zero =>
    intro s hin
    refine ⟨hin, ?_⟩
    show (step p s f).1.noiseRms = _
    exact (silent_step p f hf s hin).2
  | succ k ih =>
    intro s hin
    have hs := silent_step p f hf s hin
    exact ih (step p s f).1 hs.1

/-- An estimate starting below the frame RMS never overshoots it. -/
theorem silent_iter_le (p : Params) (f : Frame) (hf : f.vadSpeech = false)
    (s : St) (hin : s.inSpeech = false) (hle : s.noiseRms ≤ f.rms) :
    ∀ k, (stepIter p f k s).noiseRms ≤ f.rms := by
  intro k
  induction k with
  | zero => exact hle
  | succ k ih =>
    have h2 := (silent_iter p f hf k s hin).2
    rw [h2]
    have hα : (0 : ℚ) ≤ 1 - noiseAdaptAlpha := by norm_num [noiseAdaptAlpha]
    nlinarith [mul_le_mul_of_nonneg_left ih hα]

/-- An estimate starting above the frame RMS never undershoots it. -/
theorem silent_iter_ge (p : Params) (f : Frame) (hf : f.vadSpeech = false)
    (s : St) (hin : s.inSpeech = false) (hge : f.rms ≤ s.noiseRms) :
    ∀ k, f.rms ≤ (stepIter p f k s).noiseRms := by
  intro k
  induction k with
  | zero => exact hge
  | succ k ih =>
    have h2 := (silent_iter p f hf k s hin).2
    rw [h2]
    have hα : (0 : ℚ) ≤ 1 - noiseAdaptAlpha := by norm_num [noiseAdaptAlpha]
    nlinarith [mul_le_mul_of_nonneg_left ih hα]

end Lemmas

namespace Claims

open VAD Lemmas

/-- C7 — Noise-floor adaptation: the estimate is smoothed by
`noise' = noise*(1-α) + frame_rms*α` with `α = 1/20` exactly on frames
processed outside any confirmed speech run that are not classified speech
(candidate-phase frames are speech-classified, and trailing-silence frames
inside a run keep `in_speech` set, so the estimate is frozen on all of
them); feeding the same classifier-rejected frame repeatedly drives the
estimate monotonically toward that frame's RMS, contracting the gap by the
factor `1 - α` each step. -/
theorem C7_noise_floor_adaptation (p : Params) (s : St) (f : Frame) :
    ((isSpeechFrame p f s.noiseRms = true ∨ s.inSpeech = true) →
      (step p s f).1.noiseRms = s.noiseRms)
    ∧ (isSpeechFrame p f s.noiseRms = false → s.inSpeech = false →
      (step p s f).1.noiseRms
        = s.noiseRms * (1 - noiseAdaptAlpha) + f.rms * noiseAdaptAlpha)
    ∧ (s.inSpeech = false → f.vadSpeech = false →
      ∀ k : Nat,
        ((stepIter p f (k + 1) s).noiseRms - f.rms
            = (1 - noiseAdaptAlpha) * ((stepIter p f k s).noiseRms - f.rms))
        ∧ (s.noiseRms ≤ f.rms →
            (stepIter p f k s).noiseRms ≤ (stepIter p f (k + 1) s).noiseRms
            ∧ (stepIter p f k s).noiseRms ≤ f.rms)
        ∧ (f.rms ≤ s.noiseRms →
            (stepIter p f (k + 1) s).noiseRms ≤ (stepIter p f k s).noiseRms
            ∧ f.rms ≤ (stepIter p f k s).noiseRms)) := by
  refine ⟨?_, ?_, ?_⟩
  · intro h
    rw [step_noise]
    rcases h with h | h
    · rw [if_neg]
      simp [h]
    · rw [if_neg]
      simp [h]
  · intro h1 h2
    rw [step_noise, if_pos ⟨h1, h2⟩]
    ring
  · intro hin hf k
    have hrec := (silent_iter p f hf k s hin).2
    have hα : (0 : ℚ) ≤ 1 - noiseAdaptAlpha := by norm_num [noiseAdaptAlpha]
    refine ⟨by rw [hrec]; ring, ?_, ?_⟩
    · intro hle
      have hub := silent_iter_le p f hf s hin hle k
      have hα2 : (0 : ℚ) ≤ noiseAdaptAlpha := by norm_num [noiseAdaptAlpha]
      constructor
      · rw [hrec]
        nlinarith [mul_le_mul_of_nonneg_left hub hα2]
      · exact hub
    · intro hge
      have hlb := silent_iter_ge p f hf s hin hge k
      have hα2 : (0 : ℚ) ≤ noiseAdaptAlpha := by norm_num [noiseAdaptAlpha]
      constructor
      · rw [hrec]
        nlinarith [mul_le_mul_of_nonneg_left hlb hα2]
      · exact hlb

/-- Witness for C7: the default parameters, the initial state, and a
silent frame of RMS 0. -/
theorem C7_noise_floor_adaptation_witness :
    (isSpeechFrame (mkParams (3/2) 3 (1/2)) ⟨0, false, 0⟩
        (initSt (mkParams (3/2) 3 (1/2))).noiseRms = false)
    ∧ ((initSt (mkParams (3/2) 3 (1/2))).inSpeech = false)
    ∧ ((step (mkParams (3/2) 3 (1/2)) (initSt (mkParams (3/2) 3 (1/2))) ⟨0, false, 0⟩).1.noiseRms
        = (initSt (mkParams (3/2) 3 (1/2))).noiseRms * (1 - noiseAdaptAlpha)
          + (⟨0, false, 0⟩ : Frame).rms * noiseAdaptAlpha)
    ∧ ((stepIter (mkParams (3/2) 3 (1/2)) ⟨0, false, 0⟩ 1 (initSt (mkParams (3/2) 3 (1/2)))).noiseRms
          - (⟨0, false, 0⟩ : Frame).rms
        = (1 - noiseAdaptAlpha)
          * ((stepIter (mkParams (3/2) 3 (1/2)) ⟨0, false, 0⟩ 0
              (initSt (mkParams (3/2) 3 (1/2)))).noiseRms - (⟨0, false, 0⟩ : Frame).rms)) :=
  have hsp : isSpeechFrame (mkParams (3/2) 3 (1/2)) ⟨0, false, 0⟩
      (initSt (mkParams (3/2) 3 (1/2))).noiseRms = false :=
    isSpeechFrame_of_not_vad _ _ _ rfl
  ⟨hsp, rfl,
    (C7_noise_floor_adaptation (mkParams (3/2) 3 (1/2))
      (initSt (mkParams (3/2) 3 (1/2))) ⟨0, false, 0⟩).2.1 hsp rfl,
    ((C7_noise_floor_adaptation (mkParams (3/2) 3 (1/2))
      (initSt (mkParams (3/2) 3 (1/2))) ⟨0, false, 0⟩).2.2 rfl rfl 0).1⟩

end Claims
namespace Lemmas

open Orchestrator

theorem turnShouldStop_false (o : Orch) (turnId tok : Nat)
    (hcan : o.cancelFlag = false) (hact : isTurnActive o turnId tok = true)
    (htok : tok ∉ o.cancelledTokens) :
    turnShouldStop o turnId tok = false := by
  simp [turnShouldStop, hcan, hact, htok]

theorem tryPart_empty (C : Collab) (o : Orch) (wav : Bytes) (turnId tok : Nat) (t : Str)
    (htr : C.transcript wav = .ok t) (hstrip : pyStrip t = [])
    (hstop : turnShouldStop o turnId tok = false) :
    tryPart C o wav turnId tok = (o, [], none) := by
  simp [tryPart, hstop, htr, hstrip]

theorem finallyPart_complete (o : Orch) (turnId tok : Nat)
    (hcan : o.cancelFlag = false) (hact : isTurnActive o turnId tok = true)
    (htok : tok ∉ o.cancelledTokens) :
    Event.turnComplete ∈ (finallyPart o turnId tok).2
    ∧ (finallyPart o turnId tok).1.state
        = (if o.autoListen then OState.listening else OState.idle)
    ∧ (finallyPart o turnId tok).1.activeTurnCancel = none
    ∧ (∀ e ∈ (finallyPart o turnId tok).2,
        e = Event.turnComplete ∨ (∃ i, e = Event.vadStopped i) ∨ (∃ i, e = Event.vadStarted i)
        ∨ e = Event.stateChanged OState.listening ∨ e = Event.stateChanged OState.idle) := by
  rcases hv : o.vad with - | i <;> rcases hal : o.autoListen with - | - <;>
    simp [finallyPart, hact, clearTurnIfActive, stopVad, hv, hcan, htok, maybeAutoListen,
      startListening, setState, hal]

end Lemmas

namespace Claims

open Orchestrator Lemmas

/-- C3 counterexample: with a whitespace-only transcript for the turn
started from `Listening` on a fresh orchestrator, the turn-complete
notification *does* fire — refuting "no turn-complete notification is
fired for that Turn". -/
theorem C3_counterexample :
    pyStrip [' ', ' '] = ([] : Str)
    ∧ Event.turnComplete ∈
        (processTurn
          { transcript := fun _ => Except.ok [' ', ' '], rawDeltas := [],
            chatRaises := none, tts := fun s => Except.ok (s.map Char.toNat) }
          (onSpeechChunk (start initOrch).1 [7]).1 [7] 1 1).2 :=
  ⟨by decide, by decide⟩

/-- C3 (amended) — Empty-transcript handling: when transcription returns
an empty or whitespace-only string, the orchestrator fires no
user-transcript, assistant-text, assistant-audio or error notification for
that Turn and clears the turn token, returning to `Listening` under
auto-listen (`Idle` otherwise); the turn-complete notification, however,
does fire on this path. -/
theorem C3_empty_transcript (C : Collab) (o : Orch) (wav : Bytes) (turnId tok : Nat)
    (t : Str) (htr : C.transcript wav = .ok t) (hstrip : pyStrip t = [])
    (hcan : o.cancelFlag = false) (hact : isTurnActive o turnId tok = true)
    (htok : tok ∉ o.cancelledTokens) :
    (∀ u, Event.userTranscript u ∉ (processTurn C o wav turnId tok).2)
    ∧ (∀ u, Event.assistantText u ∉ (processTurn C o wav turnId tok).2)
    ∧ (∀ b, Event.assistantAudio b ∉ (processTurn C o wav turnId tok).2)
    ∧ (∀ m, Event.errorFired m ∉ (processTurn C o wav turnId tok).2)
    ∧ Event.turnComplete ∈ (processTurn C o wav turnId tok).2
    ∧ (processTurn C o wav turnId tok).1.state
        = (if o.autoListen then OState.listening else OState.idle)
    ∧ (processTurn C o wav turnId tok).1.activeTurnCancel = none := by
  have hstop := turnShouldStop_false o turnId tok hcan hact htok
  have htp := tryPart_empty C o wav turnId tok t htr hstrip hstop
  have hfc := finallyPart_complete o turnId tok hcan hact htok
  have hout : processTurn C o wav turnId tok
      = ((finallyPart o turnId tok).1, (finallyPart o turnId tok).2) := by
    simp [processTurn, htp]
  obtain ⟨f1, f2, f3, f4⟩ := hfc
  rw [hout]
  refine ⟨?_, ?_, ?_, ?_, f1, f2, f3⟩ <;>
    intro x hx <;>
    rcases f4 _ hx with h | ⟨i, h⟩ | ⟨i, h⟩ | h | h <;> simp_all

/-- Witness for C3 (amended) at the counterexample's concrete turn. -/
theorem C3_empty_transcript_witness :
    ((onSpeechChunk (start initOrch).1 [7]).1.cancelFlag = false)
    ∧ (isTurnActive (onSpeechChunk (start initOrch).1 [7]).1 1 1 = true)
    ∧ (1 ∉ (onSpeechChunk (start initOrch).1 [7]).1.cancelledTokens)
    ∧ ((∀ u, Event.userTranscript u ∉
          (processTurn
            { transcript := fun _ => Except.ok [' '], rawDeltas := [],
              chatRaises := none, tts := fun s => Except.ok (s.map Char.toNat) }
            (onSpeechChunk (start initOrch).1 [7]).1 [7] 1 1).2)
      ∧ (∀ u, Event.assistantText u ∉
          (processTurn
            { transcript := fun _ => Except.ok [' '], rawDeltas := [],
              chatRaises := none, tts := fun s => Except.ok (s.map Char.toNat) }
            (onSpeechChunk (start initOrch).1 [7]).1 [7] 1 1).2)
      ∧ (∀ b, Event.assistantAudio b ∉
          (processTurn
            { transcript := fun _ => Except.ok [' '], rawDeltas := [],
              chatRaises := none, tts := fun s => Except.ok (s.map Char.toNat) }
            (onSpeechChunk (start initOrch).1 [7]).1 [7] 1 1).2)
      ∧ (∀ m, Event.errorFired m ∉
          (processTurn
            { transcript := fun _ => Except.ok [' '], rawDeltas := [],
              chatRaises := none, tts := fun s => Except.ok (s.map Char.toNat) }
            (onSpeechChunk (start initOrch).1 [7]).1 [7] 1 1).2)
      ∧ Event.turnComplete ∈
          (processTurn
            { transcript := fun _ => Except.ok [' '], rawDeltas := [],
              chatRaises := none, tts := fun s => Except.ok (s.map Char.toNat) }
            (onSpeechChunk (start initOrch).1 [7]).1 [7] 1 1).2
      ∧ (processTurn
            { transcript := fun _ => Except.ok [' '], rawDeltas := [],
              chatRaises := none, tts := fun s => Except.ok (s.map Char.toNat) }
            (onSpeechChunk (start initOrch).1 [7]).1 [7] 1 1).1.state
          = (if (onSpeechChunk (start initOrch).1 [7]).1.autoListen
             then OState.listening else OState.idle)
      ∧ (processTurn
            { transcript := fun _ => Except.ok [' '], rawDeltas := [],
              chatRaises := none, tts := fun s => Except.ok (s.map Char.toNat) }
            (onSpeechChunk (start initOrch).1 [7]).1 [7] 1 1).1.activeTurnCancel = none) :=
  ⟨by decide, by decide, by decide,
    C3_empty_transcript _ _ [7] 1 1 [' '] rfl (by decide) (by decide) (by decide) (by decide)⟩

end Claims

namespace Lemmas

open Orchestrator

theorem turnFieldsEq_refl (o : Orch) : TurnFieldsEq o o := ⟨rfl, rfl, rfl, rfl, rfl⟩

theorem turnFieldsEq_trans {o1 o2 o3 : Orch}
    (h12 : TurnFieldsEq o1 o2) (h23 : TurnFieldsEq o2 o3) : TurnFieldsEq o1 o3 := by
  obtain ⟨a1, a2, a3, a4, a5⟩ := h12
  obtain ⟨b1, b2, b3, b4, b5⟩ := h23
  exact ⟨b1.trans a1, b2.trans a2, b3.trans a3, b4.trans a4, b5.trans a5⟩

theorem turnShouldStop_congr {o o' : Orch} (h : TurnFieldsEq o o') (turnId tok : Nat) :
    turnShouldStop o' turnId tok = turnShouldStop o turnId tok := by
  obtain ⟨a1, a2, a3, a4, a5⟩ := h
  simp [turnShouldStop, isTurnActive, a1, a2, a3, a4]

theorem isTurnActive_congr {o o' : Orch} (h : TurnFieldsEq o o') (turnId tok : Nat) :
    isTurnActive o' turnId tok = isTurnActive o turnId tok := by
  obtain ⟨a1, a2, a3, a4, a5⟩ := h
  simp [isTurnActive, a3, a4]

/-- `_set_state` keeps the turn bookkeeping. -/
theorem setState_fields (o : Orch) (ns : OState) : TurnFieldsEq o (setState o ns).1 :=
  ⟨rfl, rfl, rfl, rfl, rfl⟩

/-- `_speak_sentence` keeps the turn bookkeeping (it only touches the
state enum and the playback gate). -/
theorem speakSentence_fields (C : Collab) (o : Orch) (sentence : Str) (turnId tok : Nat) :
    TurnFieldsEq o (speakSentence C o sentence turnId tok).1 := by
  rcases htts : C.tts sentence with e | audio <;>
    simp only [speakSentence, htts, setState, waitForPlayback, stopPlayback] <;>
    split_ifs <;>
    exact ⟨rfl, rfl, rfl, rfl, rfl⟩

/-- The events fired by `_speak_sentence` are confined to state changes,
synthesis calls, audio hand-offs and playback control. -/
theorem speakSentence_events (C : Collab) (o : Orch) (sentence : Str) (turnId tok : Nat) :
    ∀ e ∈ (speakSentence C o sentence turnId tok).2,
      (∃ x, e = Event.stateChanged x) ∨ (∃ x, e = Event.ttsCall x)
      ∨ (∃ b, e = Event.assistantAudio b) ∨ (∃ b, e = Event.playStarted b)
      ∨ e = Event.playbackStopped := by
  intro e he
  rcases htts : C.tts sentence with m | audio <;>
    simp only [speakSentence, htts, setState, waitForPlayback, stopPlayback] at he <;>
    split_ifs at he <;>
    simp at he <;>
    aesop

end Lemmas

namespace Lemmas

open Orchestrator

/-- `on_delta` keeps the turn bookkeeping. -/
theorem onDeltaStep_fields (C : Collab) (turnId tok : Nat) (ctx : Ctx) (d : Str) :
    TurnFieldsEq ctx.orch (onDeltaStep C turnId tok ctx d).orch := by
  rw [onDeltaStep]
  split_ifs with h1
  · exact turnFieldsEq_refl _
  · rcases hfb : findBoundaryEnd (ctx.buf.sentenceBuf ++ d) with - | endPos
    · simp only [hfb]
      exact turnFieldsEq_refl _
    · simp only [hfb]
      split_ifs with h2
      · exact speakSentence_fields C ctx.orch _ turnId tok
      · exact turnFieldsEq_refl _

/-- `on_delta` only appends events, and only of the speaking classes. -/
theorem onDeltaStep_events (C : Collab) (turnId tok : Nat) (ctx : Ctx) (d : Str) :
    ∀ e ∈ (onDeltaStep C turnId tok ctx d).events,
      e ∈ ctx.events
      ∨ (∃ x, e = Event.stateChanged x) ∨ (∃ x, e = Event.ttsCall x)
      ∨ (∃ b, e = Event.assistantAudio b) ∨ (∃ b, e = Event.playStarted b)
      ∨ e = Event.playbackStopped := by
  intro e he
  rw [onDeltaStep] at he
  split_ifs at he with h1
  · exact Or.inl he
  · rcases hfb : findBoundaryEnd (ctx.buf.sentenceBuf ++ d) with - | endPos <;>
      simp only [hfb] at he
    · exact Or.inl he
    · split_ifs at he with h2
      · simp only [List.mem_append] at he
        rcases he with he | he
        · exact Or.inl he
        · exact Or.inr (speakSentence_events C ctx.orch _ turnId tok e he)
      · exact Or.inl he

/-- The truncating-branch sink keeps the turn bookkeeping. -/
theorem serviceSink_fields (C : Collab) (turnId tok : Nat) (ctx : Ctx) (x : Str) :
    TurnFieldsEq ctx.orch (serviceSink C turnId tok ctx x).orch := by
  rw [serviceSink]
  split_ifs
  · exact onDeltaStep_fields C turnId tok ctx x
  · exact turnFieldsEq_refl _

/-- The truncating-branch sink only appends events of the speaking
classes. -/
theorem serviceSink_events (C : Collab) (turnId tok : Nat) (ctx : Ctx) (x : Str) :
    ∀ e ∈ (serviceSink C turnId tok ctx x).events,
      e ∈ ctx.events
      ∨ (∃ y, e = Event.stateChanged y) ∨ (∃ y, e = Event.ttsCall y)
      ∨ (∃ b, e = Event.assistantAudio b) ∨ (∃ b, e = Event.playStarted b)
      ∨ e = Event.playbackStopped := by
  intro e he
  rw [serviceSink] at he
  split_ifs at he
  · exact onDeltaStep_events C turnId tok ctx x e he
  · exact Or.inl he

/-- The service delta loop keeps the turn bookkeeping. -/
theorem serviceLoop_fields (C : Collab) (turnId tok : Nat) (limit : Int) :
    ∀ (ds : List Str) (acc : Str) (ctx : Ctx),
      TurnFieldsEq ctx.orch (serviceLoop C turnId tok limit ds acc ctx).1.orch := by
  intro ds
  induction ds with
  | nil => intro acc ctx; exact turnFieldsEq_refl _
  | cons d ds ih =>
    intro acc ctx
    rw [serviceLoop]
    split_ifs with h1 h2 h3
    · exact turnFieldsEq_refl _
    · exact serviceSink_fields C turnId tok ctx _
    · exact turnFieldsEq_trans (serviceSink_fields C turnId tok ctx _) (ih _ _)
    · exact turnFieldsEq_trans (onDeltaStep_fields C turnId tok ctx d) (ih _ _)

/-- The service delta loop only appends events of the speaking classes. -/
theorem serviceLoop_events (C : Collab) (turnId tok : Nat) (limit : Int) :
    ∀ (ds : List Str) (acc : Str) (ctx : Ctx),
      ∀ e ∈ (serviceLoop C turnId tok limit ds acc ctx).1.events,
        e ∈ ctx.events
        ∨ (∃ x, e = Event.stateChanged x) ∨ (∃ x, e = Event.ttsCall x)
        ∨ (∃ b, e = Event.assistantAudio b) ∨ (∃ b, e = Event.playStarted b)
        ∨ e = Event.playbackStopped := by
  intro ds
  induction ds with
  | nil => intro acc ctx e he; exact Or.inl he
  | cons d ds ih =>
    intro acc ctx e he
    rw [serviceLoop] at he
    split_ifs at he with h1 h2 h3
    · exact Or.inl he
    · exact serviceSink_events C turnId tok ctx _ e he
    · rcases ih _ _ e he with hin | hcls
      · exact serviceSink_events C turnId tok ctx _ e hin
      · exact Or.inr hcls
    · rcases ih _ _ e he with hin | hcls
      · exact onDeltaStep_events C turnId tok ctx d e hin
      · exact Or.inr hcls

end Lemmas

namespace Lemmas

open Orchestrator

/-- `_arm_interrupt_listener` keeps the turn bookkeeping. -/
theorem armInterruptListener_fields (o : Orch) :
    TurnFieldsEq o (armInterruptListener o).1 := by
  rw [armInterruptListener]
  split_ifs
  · exact turnFieldsEq_refl _
  · rw [startListening]
    split_ifs <;>
      first
        | exact turnFieldsEq_refl _
        | (rcases o.vad with - | i <;> exact ⟨rfl, rfl, rfl, rfl, rfl⟩)

/-- `_arm_interrupt_listener` fires no notification: it at most arms a
detector. -/
theorem armInterruptListener_events (o : Orch) :
    ∀ e ∈ (armInterruptListener o).2, ∃ i, e = Event.vadStarted i := by
  intro e he
  by_cases hA : (!o.autoListen || o.cancelFlag) = true
  · rw [armInterruptListener, if_pos hA] at he
    simp at he
  · rw [armInterruptListener, if_neg hA] at he
    by_cases hc : o.cancelFlag = true
    · rw [startListening, if_pos hc] at he
      simp at he
    · rcases hv : o.vad with - | i
      · rw [startListening, if_neg hc, hv] at he
        simp at he
        exact ⟨o.vadCounter, he⟩
      · rw [startListening, if_neg hc, hv] at he
        simp at he

/-- `send_stream` (with sink) keeps the turn bookkeeping. -/
theorem sendStreamModel_fields (C : Collab) (turnId tok : Nat) (limit : Int) (ctx : Ctx) :
    TurnFieldsEq ctx.orch (sendStreamModel C turnId tok limit ctx).orch := by
  rw [sendStreamModel]
  rcases C.chatRaises with - | m <;>
    exact serviceLoop_fields C turnId tok limit C.rawDeltas [] ctx

/-- `send_stream` (with sink) only appends speaking-class events plus, on
a caught stream exception, the service's own error callback. -/
theorem sendStreamModel_events (C : Collab) (turnId tok : Nat) (limit : Int) (ctx : Ctx) :
    ∀ e ∈ (sendStreamModel C turnId tok limit ctx).events,
      e ∈ ctx.events
      ∨ (∃ x, e = Event.stateChanged x) ∨ (∃ x, e = Event.ttsCall x)
      ∨ (∃ b, e = Event.assistantAudio b) ∨ (∃ b, e = Event.playStarted b)
      ∨ e = Event.playbackStopped ∨ (∃ m, e = Event.serviceError m) := by
  intro e he
  rw [sendStreamModel] at he
  rcases hcr : C.chatRaises with - | m <;> rw [hcr] at he
  · rcases serviceLoop_events C turnId tok limit C.rawDeltas [] ctx e he with h | h
    · exact Or.inl h
    · exact Or.inr (by tauto)
  · simp only [List.mem_append] at he
    rcases he with he | he
    · rcases serviceLoop_events C turnId tok limit C.rawDeltas [] ctx e he with h | h
      · exact Or.inl h
      · exact Or.inr (by tauto)
    · simp at he
      subst he
      exact Or.inr (by tauto)

/-- On a caught stream exception, the service error callback fires. -/
theorem sendStreamModel_serviceError (C : Collab) (turnId tok : Nat) (limit : Int)
    (ctx : Ctx) (m : Str) (hcr : C.chatRaises = some m) :
    Event.serviceError m ∈ (sendStreamModel C turnId tok limit ctx).events := by
  rw [sendStreamModel, hcr]
  simp

end Lemmas

namespace Lemmas

open Orchestrator


/-- Inject the speaking/service event classes into the full turn event
classification. -/
theorem classes_subset {e : Event}
    (h : (∃ x, e = Event.stateChanged x) ∨ (∃ x, e = Event.ttsCall x)
      ∨ (∃ b, e = Event.assistantAudio b) ∨ (∃ b, e = Event.playStarted b)
      ∨ e = Event.playbackStopped ∨ (∃ m, e = Event.serviceError m)) :
    (∃ u, e = Event.userTranscript u) ∨ (∃ x, e = Event.stateChanged x)
    ∨ (∃ i, e = Event.vadStarted i) ∨ (∃ x, e = Event.ttsCall x)
    ∨ (∃ b, e = Event.assistantAudio b) ∨ (∃ b, e = Event.playStarted b)
    ∨ e = Event.playbackStopped ∨ (∃ m, e = Event.serviceError m)
    ∨ (∃ u, e = Event.assistantText u) := by
  rcases h with h | h | h | h | h | h
  · exact Or.inr (Or.inl h)
  · exact Or.inr (Or.inr (Or.inr (Or.inl h)))
  · exact Or.inr (Or.inr (Or.inr (Or.inr (Or.inl h))))
  · exact Or.inr (Or.inr (Or.inr (Or.inr (Or.inr (Or.inl h)))))
  · exact Or.inr (Or.inr (Or.inr (Or.inr (Or.inr (Or.inr (Or.inl h))))))
  · exact Or.inr (Or.inr (Or.inr (Or.inr (Or.inr (Or.inr (Or.inr (Or.inl h)))))))

/-- The `try` block on a successful, non-empty transcript with a live
turn: no exception escapes, the turn bookkeeping is preserved, the events
fired are confined to the turn's notification/effect classes (no
`on_error`, no turn-complete), and a caught stream exception surfaces
through the service's error callback. -/
theorem tryPart_ok (C : Collab) (o : Orch) (wav : Bytes) (turnId tok : Nat) (t : Str)
    (htr : C.transcript wav = .ok t) (hne : ¬ pyStrip t = [])
    (hstop : turnShouldStop o turnId tok = false) :
    (tryPart C o wav turnId tok).2.2 = none
    ∧ TurnFieldsEq o (tryPart C o wav turnId tok).1
    ∧ (∀ e ∈ (tryPart C o wav turnId tok).2.1,
        (∃ u, e = Event.userTranscript u) ∨ (∃ x, e = Event.stateChanged x)
        ∨ (∃ i, e = Event.vadStarted i) ∨ (∃ x, e = Event.ttsCall x)
        ∨ (∃ b, e = Event.assistantAudio b) ∨ (∃ b, e = Event.playStarted b)
        ∨ e = Event.playbackStopped ∨ (∃ m, e = Event.serviceError m)
        ∨ (∃ u, e = Event.assistantText u))
    ∧ (∀ m, C.chatRaises = some m →
        Event.serviceError m ∈ (tryPart C o wav turnId tok).2.1) := by
  have hf1 : TurnFieldsEq o (setState o OState.thinking).1 := setState_fields o _
  have hf2 : TurnFieldsEq (setState o OState.thinking).1
      (armInterruptListener (setState o OState.thinking).1).1 := armInterruptListener_fields _
  have hf3 : TurnFieldsEq (armInterruptListener (setState o OState.thinking).1).1
      (sendStreamModel C turnId tok
        (responseWordLimit (armInterruptListener (setState o OState.thinking).1).1)
        ⟨(armInterruptListener (setState o OState.thinking).1).1, ⟨[], []⟩, []⟩).orch :=
    sendStreamModel_fields C turnId tok _ _
  have hfA : TurnFieldsEq o
      (sendStreamModel C turnId tok
        (responseWordLimit (armInterruptListener (setState o OState.thinking).1).1)
        ⟨(armInterruptListener (setState o OState.thinking).1).1, ⟨[], []⟩, []⟩).orch :=
    turnFieldsEq_trans (turnFieldsEq_trans hf1 hf2) hf3
  have hg1 : turnShouldStop (setState o OState.thinking).1 turnId tok = false := by
    rw [turnShouldStop_congr hf1]; exact hstop
  have hg2 : turnShouldStop
      (sendStreamModel C turnId tok
        (responseWordLimit (armInterruptListener (setState o OState.thinking).1).1)
        ⟨(armInterruptListener (setState o OState.thinking).1).1, ⟨[], []⟩, []⟩).orch
      turnId tok = false := by
    rw [turnShouldStop_congr hfA]; exact hstop
  refine ⟨?_, ?_, ?_, ?_⟩
  · simp only [tryPart, htr, hstop, hg1, hg2, hne, Bool.false_eq_true, if_false, ite_false]
  · simp only [tryPart, htr, hstop, hg1, hg2, hne, Bool.false_eq_true, if_false, ite_false]
    split_ifs with hrem
    · exact turnFieldsEq_trans hfA (speakSentence_fields C _ _ turnId tok)
    · exact hfA
  · simp only [tryPart, htr, hstop, hg1, hg2, hne, Bool.false_eq_true, if_false, ite_false]
    intro e he
    simp only [List.mem_append, List.mem_cons, List.not_mem_nil, or_false] at he
    rcases he with ((((he | he) | he) | he) | he) | he
    · exact Or.inl ⟨_, he⟩
    · simp [setState] at he
      subst he
      exact Or.inr (Or.inl ⟨_, rfl⟩)
    · obtain ⟨i, hi⟩ := armInterruptListener_events _ e he
      exact Or.inr (Or.inr (Or.inl ⟨i, hi⟩))
    · rcases sendStreamModel_events C turnId tok _ _ e he with h | h
      · simp at h
      · exact classes_subset h
    · revert he
      split_ifs with hrem
      · intro he
        rcases speakSentence_events C _ _ turnId tok e he with h | h | h | h | h
        · exact Or.inr (Or.inl h)
        · exact Or.inr (Or.inr (Or.inr (Or.inl h)))
        · exact Or.inr (Or.inr (Or.inr (Or.inr (Or.inl h))))
        · exact Or.inr (Or.inr (Or.inr (Or.inr (Or.inr (Or.inl h)))))
        · exact Or.inr (Or.inr (Or.inr (Or.inr (Or.inr (Or.inr (Or.inl h))))))
      · intro he
        simp at he
    · revert he
      split_ifs
      all_goals intro he
      all_goals simp at he
      all_goals
        subst he
        exact Or.inr (Or.inr (Or.inr (Or.inr (Or.inr (Or.inr (Or.inr (Or.inr ⟨_, rfl⟩)))))))
  · simp only [tryPart, htr, hstop, hg1, hg2, hne, Bool.false_eq_true, if_false, ite_false]
    intro m hcr
    have hmem := sendStreamModel_serviceError C turnId tok
      (responseWordLimit (armInterruptListener (setState o OState.thinking).1).1)
      ⟨(armInterruptListener (setState o OState.thinking).1).1, ⟨[], []⟩, []⟩ m hcr
    simp only [List.mem_append, List.mem_cons, List.not_mem_nil, or_false]
    exact Or.inl (Or.inl (Or.inr hmem))

end Lemmas

namespace Lemmas

open Orchestrator

/-- The `try` block on a failed transcription: the exception escapes to
the handler, nothing else happened. -/
theorem tryPart_error (C : Collab) (o : Orch) (wav : Bytes) (turnId tok : Nat) (e : Str)
    (htr : C.transcript wav = .error e) (hstop : turnShouldStop o turnId tok = false) :
    tryPart C o wav turnId tok = (o, [], some e) := by
  simp [tryPart, hstop, htr]

/-- None of the turn's event classes is the orchestrator error
notification. -/
theorem isErrorEv_false_of_classes {e : Event}
    (h : (∃ u, e = Event.userTranscript u) ∨ (∃ x, e = Event.stateChanged x)
      ∨ (∃ i, e = Event.vadStarted i) ∨ (∃ x, e = Event.ttsCall x)
      ∨ (∃ b, e = Event.assistantAudio b) ∨ (∃ b, e = Event.playStarted b)
      ∨ e = Event.playbackStopped ∨ (∃ m, e = Event.serviceError m)
      ∨ (∃ u, e = Event.assistantText u)) :
    isErrorEv e = false := by
  rcases h with ⟨u, rfl⟩ | ⟨x, rfl⟩ | ⟨i, rfl⟩ | ⟨x, rfl⟩ | ⟨b, rfl⟩ | ⟨b, rfl⟩ | rfl
    | ⟨m, rfl⟩ | ⟨u, rfl⟩ <;> rfl

/-- Nor is any event of the `finally` block's bookkeeping classes. -/
theorem isErrorEv_false_of_finally {e : Event}
    (h : e = Event.turnComplete ∨ (∃ i, e = Event.vadStopped i)
      ∨ (∃ i, e = Event.vadStarted i) ∨ e = Event.stateChanged OState.listening
      ∨ e = Event.stateChanged OState.idle) :
    isErrorEv e = false := by
  rcases h with rfl | ⟨i, rfl⟩ | ⟨i, rfl⟩ | rfl | rfl <;> rfl

/-- A full turn on a successful, non-empty transcript with a live turn:
no orchestrator error notification fires (whatever the synthesis outcomes
and whether or not the chat stream raised internally), the turn completes,
the orchestrator re-arms `Listening` per the auto-listen policy, the turn
token is cleared, and a caught stream exception was surfaced through the
dialogue service's own error callback. -/
theorem processTurn_ok (C : Collab) (o : Orch) (wav : Bytes) (turnId tok : Nat) (t : Str)
    (htr : C.transcript wav = .ok t) (hne : ¬ pyStrip t = [])
    (hcan : o.cancelFlag = false) (hact : isTurnActive o turnId tok = true)
    (htok : tok ∉ o.cancelledTokens) :
    (processTurn C o wav turnId tok).2.countP isErrorEv = 0
    ∧ Event.turnComplete ∈ (processTurn C o wav turnId tok).2
    ∧ (processTurn C o wav turnId tok).1.state
        = (if o.autoListen then OState.listening else OState.idle)
    ∧ (processTurn C o wav turnId tok).1.activeTurnCancel = none
    ∧ (∀ m, C.chatRaises = some m →
        Event.serviceError m ∈ (processTurn C o wav turnId tok).2) := by
  have hstop := turnShouldStop_false o turnId tok hcan hact htok
  obtain ⟨h22, hfe, hcls, hsvc⟩ := tryPart_ok C o wav turnId tok t htr hne hstop
  obtain ⟨g1, g2, g3, g4, g5⟩ := hfe
  have hcan1 : (tryPart C o wav turnId tok).1.cancelFlag = false := by rw [g1]; exact hcan
  have hact1 : isTurnActive (tryPart C o wav turnId tok).1 turnId tok = true := by
    rw [isTurnActive_congr ⟨g1, g2, g3, g4, g5⟩]; exact hact
  have htok1 : tok ∉ (tryPart C o wav turnId tok).1.cancelledTokens := by
    rw [g2]; exact htok
  obtain ⟨f1, f2, f3, f4⟩ := finallyPart_complete _ turnId tok hcan1 hact1 htok1
  have hunf : processTurn C o wav turnId tok
      = ((finallyPart (tryPart C o wav turnId tok).1 turnId tok).1,
         (tryPart C o wav turnId tok).2.1
           ++ (finallyPart (tryPart C o wav turnId tok).1 turnId tok).2) := by
    simp [processTurn, h22]
  refine ⟨?_, ?_, ?_, ?_, ?_⟩
  · rw [hunf]
    simp only [List.countP_append]
    have hz1 : (tryPart C o wav turnId tok).2.1.countP isErrorEv = 0 :=
      List.countP_eq_zero.mpr fun e he => by
        simp [isErrorEv_false_of_classes (hcls e he)]
    have hz2 : (finallyPart (tryPart C o wav turnId tok).1 turnId tok).2.countP isErrorEv = 0 :=
      List.countP_eq_zero.mpr fun e he => by
        simp [isErrorEv_false_of_finally (f4 e he)]
    omega
  · rw [hunf]
    exact List.mem_append_right _ f1
  · rw [hunf]
    rw [f2, g5]
  · rw [hunf]
    exact f3
  · intro m hcr
    rw [hunf]
    exact List.mem_append_left _ (hsvc m hcr)

end Lemmas

namespace Claims

open Orchestrator Lemmas

/-- C4 counterexample: in a turn whose synthesis call raises (the
synthesize invocation is recorded in the events; transcript and chat
succeeded), the orchestrator error notification fires zero times — not
exactly once as claimed. -/
theorem C4_counterexample :
    Event.ttsCall ['o','k','.'] ∈
      (processTurn
        { transcript := fun _ => Except.ok ['h','i'], rawDeltas := [['o','k','.',' ']],
          chatRaises := none, tts := fun _ => Except.error ['b','o','o','m'] }
        (onSpeechChunk (start initOrch).1 [7]).1 [7] 1 1).2
    ∧ (processTurn
        { transcript := fun _ => Except.ok ['h','i'], rawDeltas := [['o','k','.',' ']],
          chatRaises := none, tts := fun _ => Except.error ['b','o','o','m'] }
        (onSpeechChunk (start initOrch).1 [7]).1 [7] 1 1).2.countP isErrorEv = 0 :=
  ⟨by decide, by decide⟩

/-- C4 (amended) — Collaborator-error handling: a transcription exception
is caught per Turn and fires the orchestrator's error notification exactly
once; a chat-stream exception is caught inside the dialogue service and
surfaces only through the service's own error callback, not the
orchestrator's error notification; synthesis exceptions are caught per
sentence and only logged, firing no error notification; in every case the
Turn terminates gracefully — the turn token is cleared and the
orchestrator ends re-armed in `Listening` or settles to `Idle` per the
auto-listen policy. -/
theorem C4_collaborator_errors (C : Collab) (o : Orch) (wav : Bytes) (turnId tok : Nat)
    (hcan : o.cancelFlag = false) (hact : isTurnActive o turnId tok = true)
    (htok : tok ∉ o.cancelledTokens) :
    ErrorHandlingSpec C o wav turnId tok := by
  have hstop := turnShouldStop_false o turnId tok hcan hact htok
  obtain ⟨f1, f2, f3, f4⟩ := finallyPart_complete o turnId tok hcan hact htok
  refine ⟨?_, ?_, ?_⟩
  · intro e htr
    have htp := tryPart_error C o wav turnId tok e htr hstop
    have hunf : processTurn C o wav turnId tok
        = ((finallyPart o turnId tok).1,
           [Event.errorFired e] ++ (finallyPart o turnId tok).2) := by
      simp [processTurn, htp]
    refine ⟨?_, ?_, ?_, ?_⟩
    · rw [hunf]
      simp only [List.countP_append]
      have hz2 : (finallyPart o turnId tok).2.countP isErrorEv = 0 :=
        List.countP_eq_zero.mpr fun x hx => by
          simp [isErrorEv_false_of_finally (f4 x hx)]
      have hz1 : ([Event.errorFired e] : List Event).countP isErrorEv = 1 := rfl
      omega
    · rw [hunf]
      exact List.mem_append_left _ (by simp)
    · rw [hunf]
      exact f2
    · rw [hunf]
      exact f3
  · intro t m htr hne hcr
    obtain ⟨p1, p2, p3, p4, p5⟩ := processTurn_ok C o wav turnId tok t htr hne hcan hact htok
    exact ⟨p1, p5 m hcr, p2, p3, p4⟩
  · intro t htr hne htts
    obtain ⟨p1, p2, p3, p4, p5⟩ := processTurn_ok C o wav turnId tok t htr hne hcan hact htok
    exact ⟨p1, p2, p3, p4⟩

/-- Witness for C4 (amended) at a concrete turn with a failing
transcription collaborator. -/
theorem C4_collaborator_errors_witness :
    ((onSpeechChunk (start initOrch).1 [7]).1.cancelFlag = false)
    ∧ (isTurnActive (onSpeechChunk (start initOrch).1 [7]).1 1 1 = true)
    ∧ (1 ∉ (onSpeechChunk (start initOrch).1 [7]).1.cancelledTokens)
    ∧ ErrorHandlingSpec
        { transcript := fun _ => Except.error ['n','e','t'], rawDeltas := [],
          chatRaises := none, tts := fun _ => Except.error ['x'] }
        (onSpeechChunk (start initOrch).1 [7]).1 [7] 1 1 :=
  ⟨by decide, by decide, by decide,
    C4_collaborator_errors _ _ [7] 1 1 (by decide) (by decide) (by decide)⟩

end Claims

namespace Lemmas

open Orchestrator

theorem hasBoundary_cons_succ (c : Char) (cs : Str) (j : Nat) :
    HasBoundaryAt (c :: cs) (j + 1) ↔ HasBoundaryAt cs j := by
  simp [HasBoundaryAt]

theorem hasBoundary_zero (a b : Char) (cs : Str) :
    HasBoundaryAt (a :: b :: cs) 0 ↔ (isSentenceEnd a = true ∧ pyIsSpace b = true) := by
  constructor
  · rintro ⟨x, y, hx, hy, hpx, hpy⟩
    simp at hx hy
    subst hx; subst hy
    exact ⟨hpx, hpy⟩
  · rintro ⟨ha, hb⟩
    exact ⟨a, b, by simp, by simp, ha, hb⟩

/-- The regex search returns the end of the *leftmost* boundary. -/
theorem findBoundaryEnd_some : ∀ (cs : Str) (p : Nat),
    findBoundaryEnd cs = some p →
    2 ≤ p ∧ HasBoundaryAt cs (p - 2) ∧ ∀ q, HasBoundaryAt cs q → p - 2 ≤ q := by
  intro cs
  induction cs with
  | nil => intro p h; simp [findBoundaryEnd] at h
  | cons a rest ih =>
    intro p h
    cases rest with
    | nil => simp [findBoundaryEnd] at h
    | cons b rest' =>
      rw [findBoundaryEnd] at h
      split_ifs at h with hcond
      · obtain rfl : (2 : Nat) = p := Option.some.inj h
        simp only [Bool.and_eq_true] at hcond
        refine ⟨le_refl 2, ?_, fun q _ => Nat.zero_le q⟩
        simpa [hasBoundary_zero] using hcond
      · simp only [Option.map_eq_some'] at h
        obtain ⟨p', hp', rfl⟩ := h
        obtain ⟨h2, hbd, hmin⟩ := ih p' hp'
        refine ⟨by omega, ?_, ?_⟩
        · have hshift : p' + 1 - 2 = (p' - 2) + 1 := by omega
          rw [hshift, hasBoundary_cons_succ]
          exact hbd
        · intro q hq
          match q, hq with
          | 0, hq =>
            exfalso
            rw [hasBoundary_zero] at hq
            simp only [Bool.and_eq_true] at hcond
            exact hcond ⟨hq.1, hq.2⟩
          | Nat.succ j, hq =>
            rw [hasBoundary_cons_succ] at hq
            have := hmin j hq
            omega

/-- A failed regex search means no boundary anywhere. -/
theorem findBoundaryEnd_none : ∀ (cs : Str), findBoundaryEnd cs = none →
    ∀ i, ¬ HasBoundaryAt cs i := by
  intro cs
  induction cs with
  | nil =>
    intro h i hb
    rcases hb with ⟨a, b, ha, -⟩
    simp at ha
  | cons a rest ih =>
    intro h i hb
    cases rest with
    | nil =>
      rcases hb with ⟨x, y, hx, hy, -⟩
      rcases i with - | j <;> simp at hx hy
    | cons b rest' =>
      rw [findBoundaryEnd] at h
      split_ifs at h with hcond
      rw [Option.map_eq_none'] at h
      have hrest : findBoundaryEnd (b :: rest') = none := h
      rcases i with - | j
      · rw [hasBoundary_zero] at hb
        simp only [Bool.and_eq_true] at hcond
        exact hcond ⟨hb.1, hb.2⟩
      · rw [hasBoundary_cons_succ] at hb
        exact ih hrest j hb

theorem isSentenceEnd_not_space (c : Char) (h : isSentenceEnd c = true) :
    pyIsSpace c = false := by
  simp [isSentenceEnd] at h
  rcases h with ((rfl | rfl) | rfl) | rfl <;> rfl

end Lemmas
namespace Lemmas

/-- `str.strip()` removes only whitespace, from both ends. -/
theorem pyStrip_decomp (cs : Str) :
    ∃ wa wb, cs = wa ++ pyStrip cs ++ wb
      ∧ (∀ c ∈ wa, pyIsSpace c = true) ∧ (∀ c ∈ wb, pyIsSpace c = true) := by
  refine ⟨cs.takeWhile pyIsSpace,
    (((cs.dropWhile pyIsSpace).reverse.takeWhile pyIsSpace).reverse), ?_, ?_, ?_⟩
  · have hinner : (cs.dropWhile pyIsSpace)
        = pyStrip cs ++ ((cs.dropWhile pyIsSpace).reverse.takeWhile pyIsSpace).reverse := by
      calc cs.dropWhile pyIsSpace
          = (cs.dropWhile pyIsSpace).reverse.reverse := (List.reverse_reverse _).symm
        _ = (((cs.dropWhile pyIsSpace).reverse.takeWhile pyIsSpace)
              ++ ((cs.dropWhile pyIsSpace).reverse.dropWhile pyIsSpace)).reverse := by
            rw [List.takeWhile_append_dropWhile]
        _ = ((cs.dropWhile pyIsSpace).reverse.dropWhile pyIsSpace).reverse
              ++ ((cs.dropWhile pyIsSpace).reverse.takeWhile pyIsSpace).reverse := by
            rw [List.reverse_append]
        _ = pyStrip cs ++ ((cs.dropWhile pyIsSpace).reverse.takeWhile pyIsSpace).reverse := rfl
    conv_lhs => rw [← List.takeWhile_append_dropWhile (p := pyIsSpace) (l := cs)]
    conv_lhs => rw [hinner]
    exact (List.append_assoc _ _ _).symm
  · intro c hc
    exact List.mem_takeWhile_imp hc
  · intro c hc
    rw [List.mem_reverse] at hc
    exact List.mem_takeWhile_imp hc

/-- An all-whitespace strip result means the whole string is whitespace. -/
theorem pyStrip_eq_nil_all_ws (cs : Str) (h : pyStrip cs = []) :
    ∀ c ∈ cs, pyIsSpace c = true := by
  obtain ⟨wa, wb, hdec, hwa, hwb⟩ := pyStrip_decomp cs
  rw [h] at hdec
  intro c hc
  rw [hdec] at hc
  simp at hc
  rcases hc with hc | hc
  · exact hwa c hc
  · exact hwb c hc

end Lemmas
namespace Lemmas

open Orchestrator

/-- A live `_speak_sentence` call synthesizes exactly its sentence. -/
theorem speakSentence_spoken (C : Collab) (o : Orch) (sentence : Str) (turnId tok : Nat)
    (hstop : turnShouldStop o turnId tok = false) :
    spokenSentences (speakSentence C o sentence turnId tok).2 = [sentence] := by
  have hstop2 : turnShouldStop (setState o OState.speaking).1 turnId tok = false := by
    rw [turnShouldStop_congr (setState_fields o _)]; exact hstop
  rcases htts : C.tts sentence with m | audio <;>
    simp only [speakSentence, hstop, hstop2, htts, setState, waitForPlayback, stopPlayback,
      Bool.false_eq_true, if_false] <;>
    first
      | (split_ifs <;> simp [spokenSentences])
      | simp [spokenSentences]

/-- Flushing a chunk with non-empty strip appends exactly one sentence to
a whitespace-interleaved decomposition. -/
theorem sj_flush {l : List Str} {pre : Str} (cut : Str) (h : SJ l pre)
    (hs : pyStrip cut ≠ []) :
    SJ (l ++ [pyStrip cut]) (pre ++ cut) := by
  obtain ⟨wa, wb, hdec, hwa, hwb⟩ := pyStrip_decomp cut
  have h1 : SJ l (pre ++ wa) := SJ.addWS l pre wa hwa h
  have h2 : SJ (l ++ [pyStrip cut]) ((pre ++ wa) ++ pyStrip cut) :=
    SJ.addSentence l (pre ++ wa) (pyStrip cut) hs h1
  have h3 : SJ (l ++ [pyStrip cut]) (((pre ++ wa) ++ pyStrip cut) ++ wb) :=
    SJ.addWS _ _ wb hwb h2
  have heq : ((pre ++ wa) ++ pyStrip cut) ++ wb = pre ++ cut := by
    conv_rhs => rw [hdec]
    simp [List.append_assoc]
  exact heq ▸ h3

/-- Flushing an all-whitespace chunk only extends the padding. -/
theorem sj_ws_flush {l : List Str} {pre : Str} (cut : Str) (h : SJ l pre)
    (hs : pyStrip cut = []) :
    SJ l (pre ++ cut) :=
  SJ.addWS l pre cut (pyStrip_eq_nil_all_ws cut hs) h

/-- One live `on_delta` call: the accumulated text grows by the delta and
the spoken sentences still interleave with whitespace into the text
already split off the sentence buffer. -/
theorem onDeltaStep_seg (C : Collab) (turnId tok : Nat) (ctx : Ctx) (d : Str) (pre : Str)
    (hstop : turnShouldStop ctx.orch turnId tok = false)
    (hSJ : SJ (spokenSentences ctx.events) pre)
    (hdec : ctx.buf.accumulated = pre ++ ctx.buf.sentenceBuf) :
    (onDeltaStep C turnId tok ctx d).buf.accumulated = ctx.buf.accumulated ++ d
    ∧ ∃ pre', SJ (spokenSentences (onDeltaStep C turnId tok ctx d).events) pre'
        ∧ (onDeltaStep C turnId tok ctx d).buf.accumulated
            = pre' ++ (onDeltaStep C turnId tok ctx d).buf.sentenceBuf := by
  rw [onDeltaStep, if_neg (by simp [hstop])]
  rcases hfb : findBoundaryEnd (ctx.buf.sentenceBuf ++ d) with - | endPos <;>
    simp only [hfb]
  · refine ⟨by simp, pre, hSJ, ?_⟩
    show ctx.buf.accumulated ++ d = pre ++ (ctx.buf.sentenceBuf ++ d)
    rw [hdec, List.append_assoc]
  · split_ifs with hsent
    · refine ⟨by simp, pre ++ (ctx.buf.sentenceBuf ++ d).take endPos, ?_, ?_⟩
      · simp only [spokenSentences, List.filterMap_append]
        rw [show (speakSentence C ctx.orch (pyStrip ((ctx.buf.sentenceBuf ++ d).take endPos))
              turnId tok).2.filterMap _
            = [pyStrip ((ctx.buf.sentenceBuf ++ d).take endPos)]
          from speakSentence_spoken C ctx.orch _ turnId tok hstop]
        exact sj_flush _ hSJ hsent
      · show ctx.buf.accumulated ++ d
            = (pre ++ (ctx.buf.sentenceBuf ++ d).take endPos)
              ++ (ctx.buf.sentenceBuf ++ d).drop endPos
        rw [hdec, List.append_assoc, List.append_assoc]
        congr 1
        exact (List.take_append_drop _ _).symm
    · refine ⟨by simp, pre ++ (ctx.buf.sentenceBuf ++ d).take endPos, ?_, ?_⟩
      · push_neg at hsent
        exact sj_ws_flush _ hSJ hsent
      · show ctx.buf.accumulated ++ d
            = (pre ++ (ctx.buf.sentenceBuf ++ d).take endPos)
              ++ (ctx.buf.sentenceBuf ++ d).drop endPos
        rw [hdec, List.append_assoc, List.append_assoc]
        congr 1
        exact (List.take_append_drop _ _).symm

end Lemmas
namespace Lemmas

open Orchestrator DialogueSvc

theorem turnShouldStop_false_elim {o : Orch} {turnId tok : Nat}
    (h : turnShouldStop o turnId tok = false) :
    o.cancelFlag = false ∧ tok ∉ o.cancelledTokens ∧ isTurnActive o turnId tok = true := by
  simp only [turnShouldStop, Bool.or_eq_false_iff, Bool.not_eq_true', decide_eq_false_iff_not] at h
  exact ⟨h.1.1, h.1.2, by simpa using h.2⟩

/-- The truncating-branch sink: accumulated text grows by the emitted
suffix and the spoken decomposition is maintained. -/
theorem serviceSink_seg (C : Collab) (turnId tok : Nat) (ctx : Ctx) (x : Str) (pre : Str)
    (hstop : turnShouldStop ctx.orch turnId tok = false)
    (hSJ : SJ (spokenSentences ctx.events) pre)
    (hdec : ctx.buf.accumulated = pre ++ ctx.buf.sentenceBuf) :
    (serviceSink C turnId tok ctx x).buf.accumulated = ctx.buf.accumulated ++ x
    ∧ ∃ pre', SJ (spokenSentences (serviceSink C turnId tok ctx x).events) pre'
        ∧ (serviceSink C turnId tok ctx x).buf.accumulated
            = pre' ++ (serviceSink C turnId tok ctx x).buf.sentenceBuf := by
  rw [serviceSink]
  split_ifs with hx
  · exact onDeltaStep_seg C turnId tok ctx x pre hstop hSJ hdec
  · push_neg at hx
    subst hx
    exact ⟨by simp, pre, hSJ, hdec⟩

/-- Main invariant of the live chat stage: the delta loop keeps the turn
live, keeps the `on_delta` accumulation equal to the service-side
accumulation (which itself equals the standalone `send_stream` model), and
maintains the whitespace-interleaved spoken decomposition. -/
theorem serviceLoop_main (C : Collab) (turnId tok : Nat) (limit : Int) :
    ∀ (ds : List Str) (acc : Str) (ctx : Ctx) (pre : Str),
      turnShouldStop ctx.orch turnId tok = false →
      SJ (spokenSentences ctx.events) pre →
      ctx.buf.accumulated = pre ++ ctx.buf.sentenceBuf →
      ctx.buf.accumulated = acc →
      (0 < limit → truncateToWords acc limit = acc) →
      turnShouldStop (serviceLoop C turnId tok limit ds acc ctx).1.orch turnId tok = false
      ∧ (serviceLoop C turnId tok limit ds acc ctx).1.buf.accumulated
          = (serviceLoop C turnId tok limit ds acc ctx).2
      ∧ (serviceLoop C turnId tok limit ds acc ctx).2
          = (sendStreamGo limit ds acc).accumulated
      ∧ ∃ pre',
          SJ (spokenSentences (serviceLoop C turnId tok limit ds acc ctx).1.events) pre'
          ∧ (serviceLoop C turnId tok limit ds acc ctx).1.buf.accumulated
              = pre' ++ (serviceLoop C turnId tok limit ds acc ctx).1.buf.sentenceBuf := by
  intro ds
  induction ds with
  | nil =>
    intro acc ctx pre hstop hSJ hdec hglue hInv
    refine ⟨hstop, hglue, by simp [serviceLoop, sendStreamGo], pre, hSJ, hdec⟩
  | cons d ds ih =>
    intro acc ctx pre hstop hSJ hdec hglue hInv
    obtain ⟨hcf, htokn, hactn⟩ := turnShouldStop_false_elim hstop
    rw [serviceLoop, if_neg htokn]
    by_cases hL : (0 : Int) < limit
    · rw [if_pos hL]
      by_cases hbr : (truncateToWords (acc ++ d) limit).length < (acc ++ d).length
      · rw [if_pos hbr]
        obtain ⟨r, htg⟩ : ∃ r, truncGo (acc ++ d) false limit.toNat = some r := by
          cases htg : truncGo (acc ++ d) false limit.toNat with
          | none =>
            exfalso
            rw [truncateToWords_of_none (acc ++ d) limit hL htg] at hbr
            exact absurd hbr (lt_irrefl _)
          | some r => exact ⟨r, rfl⟩
        have htrim : truncateToWords (acc ++ d) limit = r :=
          truncateToWords_of_some (acc ++ d) limit hL r htg
        have hext : acc ++ r.drop acc.length = r :=
          trimmed_extends acc d limit hL (hInv hL) r htg
        obtain ⟨hsAcc, pre', hSJ', hdec'⟩ :=
          serviceSink_seg C turnId tok ctx ((truncateToWords (acc ++ d) limit).drop acc.length)
            pre hstop hSJ hdec
        have hsf := serviceSink_fields C turnId tok ctx
          ((truncateToWords (acc ++ d) limit).drop acc.length)
        refine ⟨?_, ?_, ?_, pre', hSJ', hdec'⟩
        · rw [turnShouldStop_congr hsf]
          exact hstop
        · rw [hsAcc, hglue, htrim]
          exact hext
        · simp only [sendStreamGo, if_pos hL, if_pos hbr]
      · rw [if_neg hbr]
        have htrim : truncateToWords (acc ++ d) limit = acc ++ d :=
          truncate_eq_of_not_lt (acc ++ d) limit hL hbr
        have hem : (truncateToWords (acc ++ d) limit).drop acc.length = d := by
          rw [htrim]
          exact List.drop_left acc d
        obtain ⟨hsAcc, preM, hSJM, hdecM⟩ :=
          serviceSink_seg C turnId tok ctx ((truncateToWords (acc ++ d) limit).drop acc.length)
            pre hstop hSJ hdec
        have hsf := serviceSink_fields C turnId tok ctx
          ((truncateToWords (acc ++ d) limit).drop acc.length)
        have hstopM : turnShouldStop
            (serviceSink C turnId tok ctx
              ((truncateToWords (acc ++ d) limit).drop acc.length)).orch turnId tok = false := by
          rw [turnShouldStop_congr hsf]
          exact hstop
        have hglueM : (serviceSink C turnId tok ctx
            ((truncateToWords (acc ++ d) limit).drop acc.length)).buf.accumulated
            = truncateToWords (acc ++ d) limit := by
          rw [hsAcc, hem, hglue, htrim]
        have hInvM : 0 < limit →
            truncateToWords (truncateToWords (acc ++ d) limit) limit
              = truncateToWords (acc ++ d) limit := by
          intro h
          rw [htrim]
          exact htrim
        obtain ⟨g1, g2, g3, pre'', hSJ'', hdec''⟩ :=
          ih (truncateToWords (acc ++ d) limit)
            (serviceSink C turnId tok ctx
              ((truncateToWords (acc ++ d) limit).drop acc.length))
            preM hstopM hSJM hdecM hglueM hInvM
        refine ⟨g1, g2, ?_, pre'', hSJ'', hdec''⟩
        rw [g3]
        simp only [sendStreamGo, if_pos hL, if_neg hbr]
    · rw [if_neg hL]
      obtain ⟨hsAcc, preM, hSJM, hdecM⟩ := onDeltaStep_seg C turnId tok ctx d pre hstop hSJ hdec
      have hsf := onDeltaStep_fields C turnId tok ctx d
      have hstopM : turnShouldStop (onDeltaStep C turnId tok ctx d).orch turnId tok = false := by
        rw [turnShouldStop_congr hsf]
        exact hstop
      have hglueM : (onDeltaStep C turnId tok ctx d).buf.accumulated = acc ++ d := by
        rw [hsAcc, hglue]
      have hInvM : 0 < limit → truncateToWords (acc ++ d) limit = acc ++ d := by
        intro h
        exact absurd h hL
      obtain ⟨g1, g2, g3, pre'', hSJ'', hdec''⟩ :=
        ih (acc ++ d) (onDeltaStep C turnId tok ctx d) preM hstopM hSJM hdecM hglueM hInvM
      refine ⟨g1, g2, ?_, pre'', hSJ'', hdec''⟩
      rw [g3]
      simp only [sendStreamGo, if_neg hL]

end Lemmas
namespace Lemmas

open Orchestrator DialogueSvc

theorem spokenSentences_append (a b : List Event) :
    spokenSentences (a ++ b) = spokenSentences a ++ spokenSentences b := by
  simp [spokenSentences]

theorem spokenSentences_setState (o : Orch) (ns : OState) :
    spokenSentences (setState o ns).2 = [] := rfl

theorem spokenSentences_stopVad (o : Orch) :
    spokenSentences (stopVad o).2 = [] := by
  rcases h : o.vad with - | i <;> simp [stopVad, h, spokenSentences]

theorem spokenSentences_startListening (o : Orch) (b : Bool) :
    spokenSentences (startListening o b).2 = [] := by
  rw [startListening]
  by_cases h1 : o.cancelFlag = true
  · rw [if_pos h1]
    cases b <;> simp [setState, spokenSentences]
  · rw [if_neg h1]
    rcases h : o.vad with - | i
    · cases b <;> simp [setState, spokenSentences]
    · simp [spokenSentences]

theorem spokenSentences_maybeAutoListen (o : Orch) :
    spokenSentences (maybeAutoListen o).2 = [] := by
  rw [maybeAutoListen]
  split_ifs
  · simp [setState, spokenSentences]
  · exact spokenSentences_startListening o true
  · simp [setState, spokenSentences]

theorem spokenSentences_armInterrupt (o : Orch) :
    spokenSentences (armInterruptListener o).2 = [] := by
  rw [armInterruptListener]
  split_ifs
  · rfl
  · exact spokenSentences_startListening o false

/-- The `finally` block of a turn issues no synthesis call. -/
theorem spokenSentences_finallyPart (o : Orch) (turnId tok : Nat) :
    spokenSentences (finallyPart o turnId tok).2 = [] := by
  simp only [finallyPart]
  by_cases h1 : (!isTurnActive o turnId tok) = true
  · rw [if_pos h1]
    rfl
  · rw [if_neg h1]
    by_cases h2 : (stopVad (clearTurnIfActive o turnId tok)).1.cancelFlag = true
    · rw [if_pos h2, spokenSentences_append, spokenSentences_stopVad, spokenSentences_setState]
      rfl
    · rw [if_neg h2]
      by_cases h3 : tok ∉ (stopVad (clearTurnIfActive o turnId tok)).1.cancelledTokens
      · rw [if_pos h3, spokenSentences_append, spokenSentences_append, spokenSentences_stopVad,
          spokenSentences_maybeAutoListen]
        rfl
      · rw [if_neg h3]
        exact spokenSentences_stopVad _

theorem truncateToWords_nil (L : Int) : truncateToWords [] L = [] := by
  rw [truncateToWords]
  split_ifs
  · rfl
  · simp [truncGo]

/-- The flushed portion up to a found boundary never strips to nothing:
it contains the sentence-terminal punctuation character, which is not
whitespace. -/
theorem strip_take_boundary_ne (cs : Str) (e : Nat) (h : findBoundaryEnd cs = some e) :
    pyStrip (cs.take e) ≠ [] := by
  obtain ⟨h2, hbd, -⟩ := findBoundaryEnd_some cs e h
  obtain ⟨a, b, ha, hb, hpa, hpb⟩ := hbd
  intro hnil
  have hlt : e - 2 < e := by omega
  have hq : (cs.take e)[e - 2]? = some a := by
    rw [List.getElem?_take_of_lt hlt]
    exact ha
  have hmem : a ∈ cs.take e := List.getElem?_mem hq
  have hws := pyStrip_eq_nil_all_ws (cs.take e) hnil a hmem
  rw [isSentenceEnd_not_space a hpa] at hws
  exact Bool.false_ne_true hws

theorem responseWordLimit_setState (o : Orch) (ns : OState) :
    responseWordLimit (setState o ns).1 = responseWordLimit o := rfl

theorem responseWordLimit_armInterrupt (o : Orch) :
    responseWordLimit (armInterruptListener o).1 = responseWordLimit o := by
  rw [armInterruptListener]
  split_ifs
  · rfl
  · rw [startListening]
    by_cases h1 : o.cancelFlag = true
    · rw [if_pos h1]
      rfl
    · rw [if_neg h1]
      rcases h : o.vad with - | i <;> rfl

theorem spokenSentences_assistantIte (P : Prop) [inst : Decidable P] (x : Str) :
    spokenSentences (if P then [Event.assistantText x] else []) = [] := by
  split_ifs <;> rfl

end Lemmas
namespace Lemmas

open Orchestrator DialogueSvc

/-- Segmentation through the whole `try` block: on a successful non-empty
transcript with a live turn, the sentences flushed for synthesis (in
order) interleave with whitespace-only padding to the full accumulated
reply of the standalone `send_stream` model. -/
theorem tryPart_seg (C : Collab) (o : Orch) (wav : Bytes) (turnId tok : Nat) (t0 : Str)
    (htr : C.transcript wav = .ok t0) (hne : ¬ pyStrip t0 = [])
    (hstop : turnShouldStop o turnId tok = false) :
    SJ (spokenSentences (tryPart C o wav turnId tok).2.1)
      ((sendStreamGo (responseWordLimit o) C.rawDeltas []).accumulated) := by
  have hf1 : TurnFieldsEq o (setState o OState.thinking).1 := setState_fields o _
  have hf2 : TurnFieldsEq (setState o OState.thinking).1
      (armInterruptListener (setState o OState.thinking).1).1 := armInterruptListener_fields _
  have hg1 : turnShouldStop (setState o OState.thinking).1 turnId tok = false := by
    rw [turnShouldStop_congr hf1]; exact hstop
  have hg0 : turnShouldStop (armInterruptListener (setState o OState.thinking).1).1
      turnId tok = false := by
    rw [turnShouldStop_congr (turnFieldsEq_trans hf1 hf2)]; exact hstop
  have hLim : responseWordLimit (armInterruptListener (setState o OState.thinking).1).1
      = responseWordLimit o := by
    rw [responseWordLimit_armInterrupt, responseWordLimit_setState]
  obtain ⟨g1, g2, g3, pre', hSJ', hdec'⟩ :=
    serviceLoop_main C turnId tok
      (responseWordLimit (armInterruptListener (setState o OState.thinking).1).1)
      C.rawDeltas []
      ⟨(armInterruptListener (setState o OState.thinking).1).1, ⟨[], []⟩, []⟩ []
      hg0 SJ.nil rfl rfl (fun _ => truncateToWords_nil _)
  have hMo : (sendStreamModel C turnId tok
        (responseWordLimit (armInterruptListener (setState o OState.thinking).1).1)
        ⟨(armInterruptListener (setState o OState.thinking).1).1, ⟨[], []⟩, []⟩).orch
      = (serviceLoop C turnId tok
          (responseWordLimit (armInterruptListener (setState o OState.thinking).1).1)
          C.rawDeltas []
          ⟨(armInterruptListener (setState o OState.thinking).1).1, ⟨[], []⟩, []⟩).1.orch := by
    rw [sendStreamModel]
    rcases C.chatRaises with - | m <;> rfl
  have hMb : (sendStreamModel C turnId tok
        (responseWordLimit (armInterruptListener (setState o OState.thinking).1).1)
        ⟨(armInterruptListener (setState o OState.thinking).1).1, ⟨[], []⟩, []⟩).buf
      = (serviceLoop C turnId tok
          (responseWordLimit (armInterruptListener (setState o OState.thinking).1).1)
          C.rawDeltas []
          ⟨(armInterruptListener (setState o OState.thinking).1).1, ⟨[], []⟩, []⟩).1.buf := by
    rw [sendStreamModel]
    rcases C.chatRaises with - | m <;> rfl
  have hMe : spokenSentences (sendStreamModel C turnId tok
        (responseWordLimit (armInterruptListener (setState o OState.thinking).1).1)
        ⟨(armInterruptListener (setState o OState.thinking).1).1, ⟨[], []⟩, []⟩).events
      = spokenSentences (serviceLoop C turnId tok
          (responseWordLimit (armInterruptListener (setState o OState.thinking).1).1)
          C.rawDeltas []
          ⟨(armInterruptListener (setState o OState.thinking).1).1, ⟨[], []⟩, []⟩).1.events := by
    rw [sendStreamModel]
    rcases C.chatRaises with - | m
    · rfl
    · rw [spokenSentences_append]
      simp [spokenSentences]
  have hg2 : turnShouldStop
      (sendStreamModel C turnId tok
        (responseWordLimit (armInterruptListener (setState o OState.thinking).1).1)
        ⟨(armInterruptListener (setState o OState.thinking).1).1, ⟨[], []⟩, []⟩).orch
      turnId tok = false := by
    rw [hMo]
    exact g1
  rw [← hLim]
  simp only [tryPart, htr, hstop, hg1, hg2, hne, Bool.false_eq_true, if_false, ite_false]
  rw [spokenSentences_append, spokenSentences_append, spokenSentences_append,
    spokenSentences_append, spokenSentences_append]
  have huser : spokenSentences [Event.userTranscript (pyStrip t0)] = [] := rfl
  rw [huser, spokenSentences_setState, spokenSentences_armInterrupt,
    spokenSentences_assistantIte, hMe]
  simp only [List.nil_append, List.append_nil]
  rw [← g3, ← g2]
  by_cases hrem : pyStrip (sendStreamModel C turnId tok
      (responseWordLimit (armInterruptListener (setState o OState.thinking).1).1)
      ⟨(armInterruptListener (setState o OState.thinking).1).1, ⟨[], []⟩, []⟩).buf.sentenceBuf
      ≠ []
  · rw [if_pos hrem, speakSentence_spoken C _ _ turnId tok hg2]
    rw [hMb] at hrem ⊢
    rw [hdec']
    exact sj_flush _ hSJ' hrem
  · rw [if_neg hrem]
    push_neg at hrem
    rw [hMb] at hrem
    rw [hdec']
    have hz : spokenSentences
        (((sendStreamModel C turnId tok
          (responseWordLimit (armInterruptListener (setState o OState.thinking).1).1)
          ⟨(armInterruptListener (setState o OState.thinking).1).1, ⟨[], []⟩, []⟩).orch,
          ([] : List Event)) : Orch × List Event).2 = [] := rfl
    rw [hz, List.append_nil]
    exact sj_ws_flush _ hSJ' hrem
end Lemmas
namespace Lemmas

open Orchestrator DialogueSvc

/-- Segmentation through the whole turn (`try` block plus `finally`
block): the `finally` block issues no synthesis call, so the spoken
decomposition of the `try` block is that of the full turn. -/
theorem processTurn_seg (C : Collab) (o : Orch) (wav : Bytes) (turnId tok : Nat) (t0 : Str)
    (htr : C.transcript wav = .ok t0) (hne : ¬ pyStrip t0 = [])
    (hstop : turnShouldStop o turnId tok = false) :
    SJ (spokenSentences (processTurn C o wav turnId tok).2)
      ((sendStreamGo (responseWordLimit o) C.rawDeltas []).accumulated) := by
  obtain ⟨h22, -, -, -⟩ := tryPart_ok C o wav turnId tok t0 htr hne hstop
  have hunf : (processTurn C o wav turnId tok).2
      = (tryPart C o wav turnId tok).2.1
        ++ (finallyPart (tryPart C o wav turnId tok).1 turnId tok).2 := by
    simp [processTurn, h22]
  rw [hunf, spokenSentences_append, spokenSentences_finallyPart, List.append_nil]
  exact tryPart_seg C o wav turnId tok t0 htr hne hstop
end Lemmas
namespace Claims

open Orchestrator DialogueSvc Lemmas

/-- C8 — Sentence segmentation: (i) a sentence is flushed for synthesis
exactly when the accumulated buffer contains one of `.` `!` `?` `;`
followed by a whitespace character (the regex search succeeds iff such a
boundary exists); (ii) the search returns the end of the leftmost such
boundary; (iii) per delta, with the turn live: with no boundary nothing is
flushed and the whole buffer is carried forward, and with a boundary at
end position `e` the flushed sentence is the buffer up to and including
the boundary (stripped, always non-empty) while the remainder is carried
forward into the next delta; (iv) end to end, over a full turn on a
successful non-empty transcript, the spoken sentences interleaved with
whitespace-only padding reconstruct the full accumulated reply of the
`send_stream` model — stream-end flush included. -/
theorem C8_sentence_segmentation :
    (∀ buf : Str, (findBoundaryEnd buf).isSome ↔ ∃ i, HasBoundaryAt buf i)
    ∧ (∀ (buf : Str) (e : Nat), findBoundaryEnd buf = some e →
        2 ≤ e ∧ HasBoundaryAt buf (e - 2) ∧ ∀ q, HasBoundaryAt buf q → e - 2 ≤ q)
    ∧ (∀ (C : Collab) (turnId tok : Nat) (ctx : Ctx) (d : Str),
        turnShouldStop ctx.orch turnId tok = false →
        (findBoundaryEnd (ctx.buf.sentenceBuf ++ d) = none →
          (onDeltaStep C turnId tok ctx d).buf.sentenceBuf = ctx.buf.sentenceBuf ++ d
          ∧ spokenSentences (onDeltaStep C turnId tok ctx d).events
              = spokenSentences ctx.events)
        ∧ (∀ e, findBoundaryEnd (ctx.buf.sentenceBuf ++ d) = some e →
          pyStrip ((ctx.buf.sentenceBuf ++ d).take e) ≠ []
          ∧ (onDeltaStep C turnId tok ctx d).buf.sentenceBuf
              = (ctx.buf.sentenceBuf ++ d).drop e
          ∧ spokenSentences (onDeltaStep C turnId tok ctx d).events
              = spokenSentences ctx.events
                ++ [pyStrip ((ctx.buf.sentenceBuf ++ d).take e)]))
    ∧ (∀ (C : Collab) (o : Orch) (wav : Bytes) (turnId tok : Nat) (t0 : Str),
        C.transcript wav = .ok t0 → ¬ pyStrip t0 = [] →
        turnShouldStop o turnId tok = false →
        SJ (spokenSentences (processTurn C o wav turnId tok).2)
          ((sendStreamGo (responseWordLimit o) C.rawDeltas []).accumulated)) := by
  refine ⟨?_, ?_, ?_, ?_⟩
  · intro buf
    constructor
    · intro hs
      rcases ho : findBoundaryEnd buf with - | e
      · rw [ho] at hs
        simp at hs
      · exact ⟨e - 2, (findBoundaryEnd_some buf e ho).2.1⟩
    · rintro ⟨i, hi⟩
      rcases ho : findBoundaryEnd buf with - | e
      · exact absurd hi (findBoundaryEnd_none buf ho i)
      · simp [ho]
  · intro buf e he
    exact findBoundaryEnd_some buf e he
  · intro C turnId tok ctx d hstop
    constructor
    · intro hnone
      rw [onDeltaStep, if_neg (by simp [hstop])]
      simp [hnone]
    · intro e he
      have hsne := strip_take_boundary_ne _ e he
      refine ⟨hsne, ?_⟩
      rw [onDeltaStep, if_neg (by simp [hstop])]
      simp only [he]
      split_ifs
      refine ⟨rfl, ?_⟩
      rw [spokenSentences_append, speakSentence_spoken C ctx.orch _ turnId tok hstop]
  · intro C o wav turnId tok t0 htr hne hstop
    exact processTurn_seg C o wav turnId tok t0 htr hne hstop

/-- Witness for C8 at a concrete turn: transcript `"hi"`, deltas
`"Ok. "`, `"yes"`. -/
theorem C8_sentence_segmentation_witness :
    ¬ pyStrip (['h','i'] : Str) = []
    ∧ turnShouldStop (onSpeechChunk (start initOrch).1 [7]).1 1 1 = false
    ∧ SJ (spokenSentences (processTurn
        { transcript := fun _ => Except.ok ['h','i'],
          rawDeltas := [['O','k','.',' '], ['y','e','s']],
          chatRaises := none, tts := fun _ => Except.ok [1] }
        (onSpeechChunk (start initOrch).1 [7]).1 [7] 1 1).2)
      ((sendStreamGo
          (responseWordLimit (onSpeechChunk (start initOrch).1 [7]).1)
          [['O','k','.',' '], ['y','e','s']] []).accumulated) :=
  ⟨by decide, by decide,
    C8_sentence_segmentation.2.2.2
      { transcript := fun _ => Except.ok ['h','i'],
        rawDeltas := [['O','k','.',' '], ['y','e','s']],
        chatRaises := none, tts := fun _ => Except.ok [1] }
      (onSpeechChunk (start initOrch).1 [7]).1 [7] 1 1 ['h','i']
      rfl (by decide) (by decide)⟩

end Claims
namespace Lemmas

open Orchestrator

theorem setState_tokens (o : Orch) (ns : OState) :
    (setState o ns).1.cancelledTokens = o.cancelledTokens := rfl

theorem stopPlayback_tokens (o : Orch) :
    (stopPlayback o).1.cancelledTokens = o.cancelledTokens := rfl

theorem stopVad_tokens (o : Orch) :
    (stopVad o).1.cancelledTokens = o.cancelledTokens := by
  rcases h : o.vad with - | i <;> simp [stopVad, h]

theorem stopVad_events (o : Orch) :
    ∀ e ∈ (stopVad o).2, ∃ i, e = Event.vadStopped i := by
  intro e he
  rcases h : o.vad with - | i <;> simp [stopVad, h] at he
  exact ⟨i, he⟩

theorem startListening_tokens (o : Orch) (b : Bool) :
    (startListening o b).1.cancelledTokens = o.cancelledTokens := by
  rw [startListening]
  by_cases h1 : o.cancelFlag = true
  · rw [if_pos h1]
    cases b <;> rfl
  · rw [if_neg h1]
    rcases h : o.vad with - | i
    · cases b <;> rfl
    · rfl

theorem clearTurnIfActive_tokens (o : Orch) (turnId tok : Nat) :
    (clearTurnIfActive o turnId tok).cancelledTokens = o.cancelledTokens := by
  rw [clearTurnIfActive]
  split_ifs <;> rfl

theorem maybeAutoListen_tokens (o : Orch) :
    (maybeAutoListen o).1.cancelledTokens = o.cancelledTokens := by
  rw [maybeAutoListen]
  split_ifs
  · rfl
  · exact startListening_tokens o true
  · rfl

theorem armInterruptListener_tokens (o : Orch) :
    (armInterruptListener o).1.cancelledTokens = o.cancelledTokens := by
  rw [armInterruptListener]
  split_ifs
  · rfl
  · exact startListening_tokens o false

theorem waitForPlayback_tokens (o : Orch) (turnId tok : Nat) :
    (waitForPlayback o turnId tok).1.cancelledTokens = o.cancelledTokens := by
  rw [waitForPlayback]
  split_ifs <;> rfl

theorem cancelActiveTurn_tokens (o : Orch) (t : Nat) (h : t ∈ o.cancelledTokens) :
    t ∈ (cancelActiveTurn o).cancelledTokens := by
  rcases ha : o.activeTurnCancel with - | tk <;> rw [cancelActiveTurn, ha]
  · exact h
  · exact List.mem_cons_of_mem _ h

theorem startTurn_tokens (o : Orch) (t : Nat) (h : t ∈ o.cancelledTokens) :
    t ∈ (startTurn o).1.cancelledTokens := by
  simp only [startTurn]
  exact cancelActiveTurn_tokens o t h

theorem speakSentence_tokens (C : Collab) (o : Orch) (s : Str) (turnId tok : Nat) :
    (speakSentence C o s turnId tok).1.cancelledTokens = o.cancelledTokens :=
  (speakSentence_fields C o s turnId tok).2.1

theorem onDeltaStep_tokens (C : Collab) (turnId tok : Nat) (ctx : Ctx) (d : Str) :
    (onDeltaStep C turnId tok ctx d).orch.cancelledTokens = ctx.orch.cancelledTokens :=
  (onDeltaStep_fields C turnId tok ctx d).2.1

theorem setLimits_tokens (o : Orch) (a b : Option PyVal) :
    (setResponseWordLimits o a b).cancelledTokens = o.cancelledTokens := by
  rcases a with - | x <;> rcases b with - | y <;> rfl

/-- The whole `try` block keeps the turn bookkeeping, unconditionally. -/
theorem tryPart_fields (C : Collab) (o : Orch) (wav : Bytes) (turnId tok : Nat) :
    TurnFieldsEq o (tryPart C o wav turnId tok).1 := by
  have hf1 : TurnFieldsEq o (setState o OState.thinking).1 := setState_fields o _
  have hf2 := armInterruptListener_fields (setState o OState.thinking).1
  have hf3 := sendStreamModel_fields C turnId tok
    (responseWordLimit (armInterruptListener (setState o OState.thinking).1).1)
    ⟨(armInterruptListener (setState o OState.thinking).1).1, ⟨[], []⟩, []⟩
  have hfA := turnFieldsEq_trans (turnFieldsEq_trans hf1 hf2) hf3
  by_cases h1 : turnShouldStop o turnId tok = true
  · rw [tryPart, if_pos h1]
    exact turnFieldsEq_refl o
  · rw [tryPart, if_neg h1]
    rcases htr : C.transcript wav with e | t <;> simp only [htr]
    · exact turnFieldsEq_refl o
    · split_ifs <;>
        first
          | exact turnFieldsEq_refl o
          | exact hf1
          | exact turnFieldsEq_trans hfA (speakSentence_fields C _ _ turnId tok)
          | exact hfA

theorem tryPart_tokens (C : Collab) (o : Orch) (wav : Bytes) (turnId tok : Nat) :
    (tryPart C o wav turnId tok).1.cancelledTokens = o.cancelledTokens :=
  (tryPart_fields C o wav turnId tok).2.1

theorem finallyPart_tokens (o : Orch) (turnId tok : Nat) :
    (finallyPart o turnId tok).1.cancelledTokens = o.cancelledTokens := by
  simp only [finallyPart]
  by_cases h1 : (!isTurnActive o turnId tok) = true
  · rw [if_pos h1]
  · rw [if_neg h1]
    by_cases h2 : (stopVad (clearTurnIfActive o turnId tok)).1.cancelFlag = true
    · rw [if_pos h2]
      rw [setState_tokens, stopVad_tokens, clearTurnIfActive_tokens]
    · rw [if_neg h2]
      by_cases h3 : tok ∉ (stopVad (clearTurnIfActive o turnId tok)).1.cancelledTokens
      · rw [if_pos h3]
        rw [maybeAutoListen_tokens, stopVad_tokens, clearTurnIfActive_tokens]
      · rw [if_neg h3]
        rw [stopVad_tokens, clearTurnIfActive_tokens]

theorem processTurn_tokens (C : Collab) (o : Orch) (wav : Bytes) (turnId tok : Nat) :
    (processTurn C o wav turnId tok).1.cancelledTokens = o.cancelledTokens := by
  simp only [processTurn]
  rw [finallyPart_tokens, tryPart_tokens]

theorem onSpeechChunk_tokens (o : Orch) (wav : Bytes) (t : Nat) (h : t ∈ o.cancelledTokens) :
    t ∈ (onSpeechChunk o wav).1.cancelledTokens := by
  simp only [onSpeechChunk]
  split_ifs with h1 h2 h3
  · exact h
  · exact h
  · rw [setState_tokens]
    refine startTurn_tokens _ t ?_
    rw [stopPlayback_tokens]
    refine cancelActiveTurn_tokens _ t ?_
    rw [stopVad_tokens]
    exact h
  · rw [setState_tokens]
    refine startTurn_tokens _ t ?_
    rw [stopVad_tokens]
    exact h

theorem stop_tokens (o : Orch) (t : Nat) (h : t ∈ o.cancelledTokens) :
    t ∈ (stop o).1.cancelledTokens := by
  simp only [stop]
  rw [setState_tokens, stopPlayback_tokens, stopVad_tokens]
  exact cancelActiveTurn_tokens _ t h

theorem start_tokens (o : Orch) (t : Nat) (h : t ∈ o.cancelledTokens) :
    t ∈ (start o).1.cancelledTokens := by
  rw [start]
  split_ifs
  · exact h
  · rw [startListening_tokens]
    exact h

/-- Every orchestrator-level operation preserves membership of a set
cancellation token: once a turn's token is cancelled it stays
cancelled. -/
theorem applyOp_cancelled_mono (op : Op) (o : Orch) (t : Nat)
    (h : t ∈ o.cancelledTokens) : t ∈ (applyOp op o).cancelledTokens := by
  cases op with
  | opStart => exact start_tokens o t h
  | opStop => exact stop_tokens o t h
  | opSetAutoListen v => exact h
  | opSetLimits a b =>
    rw [applyOp, setLimits_tokens]
    exact h
  | opSpeechChunk wav => exact onSpeechChunk_tokens o wav t h
  | opProcessTurn C wav turnId tok =>
    rw [applyOp, processTurn_tokens]
    exact h
  | opSpeak C s turnId tok =>
    rw [applyOp, speakSentence_tokens]
    exact h
  | opDelta C turnId tok buf d =>
    rw [applyOp, onDeltaStep_tokens]
    exact h
  | opWait turnId tok =>
    rw [applyOp, waitForPlayback_tokens]
    exact h
  | opFinally turnId tok =>
    rw [applyOp, finallyPart_tokens]
    exact h
  | opMaybeAutoListen =>
    rw [applyOp, maybeAutoListen_tokens]
    exact h
  | opArmInterrupt =>
    rw [applyOp, armInterruptListener_tokens]
    exact h

/-- With its token cancelled, the `finally` block of the superseded turn
only stops a detector or reports a state change — never `turnComplete`. -/
theorem finallyPart_events_stale (o : Orch) (turnId tok : Nat)
    (hmem : tok ∈ o.cancelledTokens) :
    ∀ e ∈ (finallyPart o turnId tok).2,
      (∃ i, e = Event.vadStopped i) ∨ (∃ s, e = Event.stateChanged s) := by
  simp only [finallyPart]
  by_cases h1 : (!isTurnActive o turnId tok) = true
  · rw [if_pos h1]
    intro e he
    simp at he
  · rw [if_neg h1]
    by_cases h2 : (stopVad (clearTurnIfActive o turnId tok)).1.cancelFlag = true
    · rw [if_pos h2]
      intro e he
      rcases List.mem_append.mp he with he | he
      · exact Or.inl (stopVad_events _ e he)
      · simp [setState] at he
        subst he
        exact Or.inr ⟨_, rfl⟩
    · rw [if_neg h2]
      have h3 : ¬ tok ∉ (stopVad (clearTurnIfActive o turnId tok)).1.cancelledTokens := by
        rw [stopVad_tokens, clearTurnIfActive_tokens]
        exact not_not_intro hmem
      rw [if_neg h3]
      intro e he
      exact Or.inl (stopVad_events _ e he)

/-- With its token cancelled, the whole superseded turn fires no
notification: no assistant text, no audio, no turn-complete, no error. -/
theorem processTurn_stale (C : Collab) (o : Orch) (wav : Bytes) (turnId tok : Nat)
    (hmem : tok ∈ o.cancelledTokens) :
    ∀ e ∈ (processTurn C o wav turnId tok).2,
      (∃ i, e = Event.vadStopped i) ∨ (∃ s, e = Event.stateChanged s) := by
  have hstop : turnShouldStop o turnId tok = true := by
    simp [turnShouldStop, hmem]
  have htp : tryPart C o wav turnId tok = (o, [], none) := by
    rw [tryPart, if_pos hstop]
  intro e he
  simp only [processTurn, htp] at he
  simp at he
  exact finallyPart_events_stale o turnId tok hmem e he
end Lemmas
namespace Claims

open Orchestrator Lemmas

/-- C1 — Barge-in: an utterance delivered by the VAD while the
orchestrator is Thinking or Speaking (auto-listen on, not globally
cancelled, a turn in flight) sets the prior turn's cancellation token,
stops active playback, and immediately begins a new turn with a strictly
larger turn identifier (entering Transcribing); once the old token is
set, the superseded turn's delta and synthesis continuations are no-ops,
its `_process_turn` run fires no further notification (no assistant
text, audio, or turn-complete), and every orchestrator operation keeps
the token cancelled. -/
theorem C1_barge_in (o : Orch) (wav : Bytes) (tokOld : Nat)
    (hal : o.autoListen = true) (hcf : o.cancelFlag = false)
    (hst : o.state = OState.thinking ∨ o.state = OState.speaking)
    (hatc : o.activeTurnCancel = some tokOld) :
    tokOld ∈ (onSpeechChunk o wav).1.cancelledTokens
    ∧ Event.playbackStopped ∈ (onSpeechChunk o wav).2.1
    ∧ (onSpeechChunk o wav).1.playbackActive = false
    ∧ (onSpeechChunk o wav).2.2 = some (wav, o.activeTurnId + 1, o.activeTurnId + 1)
    ∧ o.activeTurnId < o.activeTurnId + 1
    ∧ (onSpeechChunk o wav).1.state = OState.transcribing
    ∧ (onSpeechChunk o wav).1.activeTurnId = o.activeTurnId + 1
    ∧ (∀ (C : Collab) (turnId : Nat) (ctx : Ctx) (d : Str),
        tokOld ∈ ctx.orch.cancelledTokens →
        onDeltaStep C turnId tokOld ctx d = ctx)
    ∧ (∀ (C : Collab) (o'' : Orch) (s : Str) (turnId : Nat),
        tokOld ∈ o''.cancelledTokens →
        speakSentence C o'' s turnId tokOld = (o'', []))
    ∧ (∀ (C : Collab) (o'' : Orch) (wav' : Bytes) (turnId : Nat),
        tokOld ∈ o''.cancelledTokens →
        ∀ e ∈ (processTurn C o'' wav' turnId tokOld).2,
          (∃ i, e = Event.vadStopped i) ∨ (∃ s, e = Event.stateChanged s))
    ∧ (∀ (op : Op) (o'' : Orch),
        tokOld ∈ o''.cancelledTokens →
        tokOld ∈ (applyOp op o'').cancelledTokens) := by
  have hA : tokOld ∈ (onSpeechChunk o wav).1.cancelledTokens
      ∧ Event.playbackStopped ∈ (onSpeechChunk o wav).2.1
      ∧ (onSpeechChunk o wav).1.playbackActive = false
      ∧ (onSpeechChunk o wav).2.2 = some (wav, o.activeTurnId + 1, o.activeTurnId + 1)
      ∧ (onSpeechChunk o wav).1.state = OState.transcribing
      ∧ (onSpeechChunk o wav).1.activeTurnId = o.activeTurnId + 1 := by
    obtain ⟨st, cf, al, vd, vc, mwa, mwm, atid, atc, ct, pa⟩ := o
    subst hal
    subst hcf
    subst hatc
    rcases hst with hs | hs <;> subst hs <;> rcases hv : vd with - | i <;> subst hv <;>
      simp [onSpeechChunk, stopVad, cancelActiveTurn, stopPlayback, startTurn, setState]
  obtain ⟨a1, a2, a3, a4, a5, a6⟩ := hA
  refine ⟨a1, a2, a3, a4, Nat.lt_succ_self _, a5, a6, ?_, ?_, ?_, ?_⟩
  · intro C turnId ctx d hmem
    rw [onDeltaStep, if_pos (by simp [turnShouldStop, hmem])]
  · intro C o'' s turnId hmem
    rw [speakSentence, if_pos (by simp [turnShouldStop, hmem])]
  · intro C o'' wav' turnId hmem
    exact processTurn_stale C o'' wav' turnId tokOld hmem
  · intro op o'' hmem
    exact applyOp_cancelled_mono op o'' tokOld hmem

/-- Witness for C1: a concrete Speaking-state orchestrator with turn 1 in
flight is barged in on. -/
theorem C1_barge_in_witness :
    ({ state := OState.speaking, cancelFlag := false, autoListen := true,
       vad := some 0, vadCounter := 1, maxWordsAuto := 100, maxWordsManual := 50,
       activeTurnId := 1, activeTurnCancel := some 1, cancelledTokens := [],
       playbackActive := true } : Orch).autoListen = true
    ∧ ({ state := OState.speaking, cancelFlag := false, autoListen := true,
          vad := some 0, vadCounter := 1, maxWordsAuto := 100, maxWordsManual := 50,
          activeTurnId := 1, activeTurnCancel := some 1, cancelledTokens := [],
          playbackActive := true } : Orch).cancelFlag = false
    ∧ 1 ∈ (onSpeechChunk
        { state := OState.speaking, cancelFlag := false, autoListen := true,
          vad := some 0, vadCounter := 1, maxWordsAuto := 100, maxWordsManual := 50,
          activeTurnId := 1, activeTurnCancel := some 1, cancelledTokens := [],
          playbackActive := true } [9]).1.cancelledTokens
    ∧ (onSpeechChunk
        { state := OState.speaking, cancelFlag := false, autoListen := true,
          vad := some 0, vadCounter := 1, maxWordsAuto := 100, maxWordsManual := 50,
          activeTurnId := 1, activeTurnCancel := some 1, cancelledTokens := [],
          playbackActive := true } [9]).2.2 = some ([9], 2, 2) := by
  have h := C1_barge_in
    { state := OState.speaking, cancelFlag := false, autoListen := true,
      vad := some 0, vadCounter := 1, maxWordsAuto := 100, maxWordsManual := 50,
      activeTurnId := 1, activeTurnCancel := some 1, cancelledTokens := [],
      playbackActive := true } [9] 1 rfl rfl (Or.inr rfl) rfl
  exact ⟨rfl, rfl, h.1, h.2.2.2.1⟩

end Claims
